import Mathlib

/-!
# hexcompare: block partition, offset index, diff cache and navigation

A shallow embedding of the comparison / indexing / navigation core of
`gui.c` (with the constants of `gui.h` and the file-size computation of
`main.c`).

Conventions of the embedding:

* C `int` values (`width`, `height`, `total_blocks`, `blocks_with_excess_byte`,
  `current_block`, mouse coordinates, `shift_type`, ...) are `Int`.  Signed
  overflow is undefined behaviour in C and does not occur for terminal
  dimensions, so no wrap-around is modelled for them.
* C `unsigned long` / `size_t` values (`largest_file_size`, `bytes_per_block`,
  `file_offset`, the entries of `offset_index`) are `Nat`; every arithmetic
  operation on them that can leave the 64-bit range is reduced `% ULONG_MOD`.
* C arrays are lists; a read outside the array makes the embedded function
  return `none`.
* `for` loops are recursive functions with a fuel argument; running out of
  fuel returns `none`, and the callers pass `total_blocks + 1` units of fuel.
-/

namespace Hexcompare

/-! ## Constants of `gui.h` -/

/-- The modulus of `unsigned long` arithmetic (LP64). -/
def ULONG_MOD : Nat := 2 ^ 64

def OVERVIEW_MODE : Int := 0
def HEX_MODE : Int := 1

def HEX_VIEW : Int := 0
def ASCII_VIEW : Int := 1

def BLOCK_SAME : Nat := 1
def BLOCK_DIFFERENT : Nat := 2
def BLOCK_EMPTY : Nat := 3
def BLOCK_ACTIVE : Nat := 4

def SIDE_MARGIN : Int := 2
def VERTICAL_BLACK_SPACE : Int := 11

def UP_ROW : Int := 2
def DOWN_ROW : Int := -2
def LEFT_BLOCK : Int := -1
def RIGHT_BLOCK : Int := 1
def UP_LINE : Int := 3
def DOWN_LINE : Int := -3

/-! ## Geometry and block partition (`calculate_dimensions`) -/

/-- The values `calculate_dimensions` stores through its pointer arguments. -/
structure Dimensions where
  width : Int
  height : Int
  total_blocks : Int
  bytes_per_block : Nat
  blocks_with_excess_byte : Int
deriving DecidableEq

/-- Lines 44-45 of `gui.c`: `largest_file_size / total_blocks` in
`unsigned long` arithmetic (the positive `int` divisor converts to itself). -/
def bytes_per_block_of (largest_file_size : Nat) (total_blocks : Int) : Nat :=
  largest_file_size / total_blocks.toNat

/-- Lines 46-47 of `gui.c`: `largest_file_size % total_blocks`, stored in an
`int` (the remainder is below `total_blocks`, so the conversion keeps it). -/
def blocks_with_excess_byte_of (largest_file_size : Nat) (total_blocks : Int) : Int :=
  ((largest_file_size % total_blocks.toNat : Nat) : Int)

/-- Embedding of `calculate_dimensions`; `width` and `height` are what
`getmaxyx` reports.  `none` stands for the `exit(1)` of a too small
terminal. -/
def calculate_dimensions (width height : Int) (largest_file_size : Nat) :
    Option Dimensions :=
  if height < 16 ∨ width < 10 then none
  else
    let total_blocks := (width - SIDE_MARGIN * 2) * (height - VERTICAL_BLACK_SPACE)
    some { width := width
           height := height
           total_blocks := total_blocks
           bytes_per_block := bytes_per_block_of largest_file_size total_blocks
           blocks_with_excess_byte :=
             blocks_with_excess_byte_of largest_file_size total_blocks }

/-- The number of bytes of block `i` (`bytes_in_block` in `generate_blocks`,
the increment of `offset` in `generate_offsets`): `bytes_per_block + 1` for
the first `blocks_with_excess_byte` blocks, `bytes_per_block` after them. -/
def bytes_in_block (bytes_per_block : Nat) (blocks_with_excess_byte : Int)
    (i : Nat) : Nat :=
  if (i : Int) < blocks_with_excess_byte then (bytes_per_block + 1) % ULONG_MOD
  else bytes_per_block

/-! ## Offset index (`generate_offsets`, `calculate_current_block`) -/

/-- The loop of `generate_offsets`, started at index `i` with the running
`offset` and the array `offset_index`. -/
def generate_offsets_loop (total_blocks : Int) (bytes_per_block : Nat)
    (blocks_with_excess_byte : Int) :
    Nat → Nat → Nat → List Nat → Option (List Nat)
  | 0, _, _, _ => none
  | fuel + 1, i, offset, offset_index =>
    if (i : Int) < total_blocks then
      let offset_index := offset_index.set i offset
      let offset :=
        if (i : Int) < blocks_with_excess_byte then
          (offset + (bytes_per_block + 1)) % ULONG_MOD
        else
          (offset + bytes_per_block) % ULONG_MOD
      generate_offsets_loop total_blocks bytes_per_block blocks_with_excess_byte
        fuel (i + 1) offset offset_index
    else some offset_index

/-- Embedding of `generate_offsets`: a fresh array of `total_blocks` entries,
filled by the loop.  The loop overwrites every entry, so the contents `malloc`
and the short `memset` leave in the array are modelled as zeros. -/
def generate_offsets (total_blocks : Int) (bytes_per_block : Nat)
    (blocks_with_excess_byte : Int) : Option (List Nat) :=
  generate_offsets_loop total_blocks bytes_per_block blocks_with_excess_byte
    (total_blocks.toNat + 1) 0 0 (List.replicate total_blocks.toNat 0)

/-- The loop of `calculate_current_block`, at index `i` with the current
value of `current_block`. -/
def calculate_current_block_loop (total_blocks : Int) (file_offset : Nat)
    (offset_index : List Nat) : Nat → Nat → Int → Option Int
  | 0, _, _ => none
  | fuel + 1, i, current_block =>
    if (i : Int) < total_blocks then
      match offset_index[i]? with
      | none => none
      | some entry =>
        if file_offset ≥ entry then
          -- `current_block = i;`
          if (i : Int) + 1 < total_blocks then
            match offset_index[i + 1]? with
            | none => none
            | some next =>
              if next = entry then some (i : Int)
              else
                calculate_current_block_loop total_blocks file_offset offset_index
                  fuel (i + 1) (i : Int)
          else
            calculate_current_block_loop total_blocks file_offset offset_index
              fuel (i + 1) (i : Int)
        else some current_block
    else some current_block

/-- Embedding of `calculate_current_block`. -/
def calculate_current_block (total_blocks : Int) (file_offset : Nat)
    (offset_index : List Nat) : Option Int :=
  calculate_current_block_loop total_blocks file_offset offset_index
    (total_blocks.toNat + 1) 0 0

/-- The read `offset_index[index]` with an `int` index: `none` outside the
array. -/
def read_index (offset_index : List Nat) (index : Int) : Option Nat :=
  if index < 0 then none else offset_index[index.toNat]?

/-- The sum of the byte spans of the blocks `0 .. total_blocks - 1`. -/
def span_sum (total_blocks : Int) (bytes_per_block : Nat)
    (blocks_with_excess_byte : Int) : Nat :=
  ((List.range total_blocks.toNat).map
    (bytes_in_block bytes_per_block blocks_with_excess_byte)).sum

/-! ## Diff cache (`generate_blocks`) -/

/-- A byte of a file (`unsigned char`). -/
abbrev Byte := Fin 256

/-- An open stream (`FILE *`): the bytes of the file and the position of the
cursor. -/
structure FILE where
  content : List Byte
  position : Nat
deriving DecidableEq

/-- The call `fseek(fp, 0, SEEK_SET)`. -/
def fseek_set_zero (fp : FILE) : FILE :=
  { fp with position := 0 }

/-- The call `fread(block, size, 1, fp)` of the C library on a buffer whose
first `size` bytes were cleared by `memset`: the number of complete items
read (`1` when `size` bytes were available, `0` otherwise; `0` and no effect
when `size` is zero), the first `size` bytes of the buffer afterwards, and the
stream, whose cursor has moved past the bytes that were read. -/
def fread (size : Nat) (fp : FILE) : Nat × List Byte × FILE :=
  if size = 0 then (0, [], fp)
  else
    let data := (fp.content.drop fp.position).take size
    (if data.length = size then 1 else 0,
     data ++ List.replicate (size - data.length) 0,
     { fp with position := fp.position + data.length })

/-- The byte comparison loop of `generate_blocks` (lines 254-259): `true`
when some position holds different bytes in the two buffers. -/
def blocks_differ : List Byte → List Byte → Bool
  | a :: as, b :: bs => if a ≠ b then true else blocks_differ as bs
  | _, _ => false

/-- The result of `generate_blocks`: the block cache, and the two streams as
the scan leaves them. -/
structure BlockScan where
  block_cache : List Nat
  file_one : FILE
  file_two : FILE
deriving DecidableEq

/-- The main loop of `generate_blocks` (lines 215-260), at block `i`. -/
def generate_blocks_loop (total_blocks : Int) (bytes_per_block : Nat)
    (blocks_with_excess_byte : Int) :
    Nat → Nat → FILE → FILE → List Nat → Option BlockScan
  | 0, _, _, _, _ => none
  | fuel + 1, i, file_one, file_two, block_cache =>
    if (i : Int) < total_blocks then
      let size := bytes_in_block bytes_per_block blocks_with_excess_byte i
      let block_cache := block_cache.set i BLOCK_SAME
      let (bytes_read_one, block_one, file_one) := fread size file_one
      let (bytes_read_two, block_two, file_two) := fread size file_two
      if bytes_read_one = 0 ∧ bytes_read_two = 0 then
        some { block_cache := block_cache.set i BLOCK_EMPTY
               file_one := file_one
               file_two := file_two }
      else if bytes_read_one ≠ bytes_read_two then
        generate_blocks_loop total_blocks bytes_per_block blocks_with_excess_byte
          fuel (i + 1) file_one file_two (block_cache.set i BLOCK_DIFFERENT)
      else if blocks_differ block_one block_two then
        generate_blocks_loop total_blocks bytes_per_block blocks_with_excess_byte
          fuel (i + 1) file_one file_two (block_cache.set i BLOCK_DIFFERENT)
      else
        generate_blocks_loop total_blocks bytes_per_block blocks_with_excess_byte
          fuel (i + 1) file_one file_two block_cache
    else
      some { block_cache := block_cache
             file_one := file_one
             file_two := file_two }

/-- Embedding of `generate_blocks`: a fresh cache of `total_blocks` entries
set to `BLOCK_EMPTY`, both streams rewound, then the main loop.  The previous
cache, which the C function only frees, is not an argument. -/
def generate_blocks (file_one file_two : FILE) (total_blocks : Int)
    (bytes_per_block : Nat) (blocks_with_excess_byte : Int) : Option BlockScan :=
  generate_blocks_loop total_blocks bytes_per_block blocks_with_excess_byte
    (total_blocks.toNat + 1) 0 (fseek_set_zero file_one) (fseek_set_zero file_two)
    (List.replicate total_blocks.toNat BLOCK_EMPTY)

/-- The classification of the block of `size` bytes starting at byte
`start`, as the specification words it: empty when the block has no bytes,
same when both files contain the whole byte range and agree on every byte of
it, different otherwise. -/
def classify_block_spec (file_one file_two : List Byte) (start size : Nat) : Nat :=
  if size = 0 then BLOCK_EMPTY
  else if start + size ≤ file_one.length ∧ start + size ≤ file_two.length ∧
      ∀ k, k < size → file_one[start + k]? = file_two[start + k]? then BLOCK_SAME
  else BLOCK_DIFFERENT

/-- The size `main` passes to `start_gui`: the larger of the two file
sizes. -/
def largest_file_size_of (file_one file_two : List Byte) : Nat :=
  if file_one.length > file_two.length then file_one.length else file_two.length

/-! ## Navigation (`calculate_offset`, `mouse_clicked`, `start_gui`) -/

/-- Embedding of `calculate_max_offset_characters`: the length of the
upper-case hexadecimal text `sprintf` writes for `fsz`. -/
def calculate_max_offset_characters (fsz : Nat) : Int :=
  ((Nat.toDigits 16 fsz).length : Int)

/-- Lines 313-315 of `calculate_offset` (the same three lines open
`generate_overview` and `generate_hex`): the `offset_jump` of a terminal
`width` and a file size.  `%` and `/` are the truncating C operators. -/
def offset_jump_of (width : Int) (largest_file_size : Nat) : Int :=
  let offset_char_size := calculate_max_offset_characters largest_file_size
  let hex_width := width - offset_char_size - 3 - SIDE_MARGIN * 2
  Int.tdiv (hex_width - Int.tmod hex_width 4) 4

/-- The conversion of an `int` to `unsigned long`. -/
def to_unsigned_long (value : Int) : Nat :=
  (value % (ULONG_MOD : Int)).toNat

/-- Embedding of `calculate_offset`. -/
def calculate_offset (file_offset : Nat) (offset_index : List Nat)
    (width total_blocks shift_type : Int) (largest_file_size : Nat) : Option Nat :=
  let blocks_in_row := width - SIDE_MARGIN * 2
  let offset_jump := to_unsigned_long (offset_jump_of width largest_file_size)
  match calculate_current_block total_blocks file_offset offset_index with
  | none => none
  | some current_block =>
    if shift_type = LEFT_BLOCK then
      read_index offset_index
        (if current_block > 0 then current_block - 1 else current_block)
    else if shift_type = RIGHT_BLOCK then
      read_index offset_index
        (if current_block < total_blocks - 1 then current_block + 1 else current_block)
    else if shift_type = UP_ROW then
      read_index offset_index
        (if current_block - blocks_in_row < 0 then 0 else current_block - blocks_in_row)
    else if shift_type = DOWN_ROW then
      read_index offset_index
        (if current_block + blocks_in_row ≥ total_blocks then total_blocks - 1
         else current_block + blocks_in_row)
    else if shift_type = UP_LINE then
      if (file_offset + ULONG_MOD - offset_jump) % ULONG_MOD > file_offset then
        read_index offset_index 0
      else
        some ((file_offset + ULONG_MOD - offset_jump + 1) % ULONG_MOD)
    else if shift_type = DOWN_LINE then
      if (file_offset + offset_jump) % ULONG_MOD ≥ largest_file_size then
        some file_offset
      else
        some ((file_offset + offset_jump + ULONG_MOD - 1) % ULONG_MOD)
    else
      read_index offset_index current_block

/-- The curses event bit `BUTTON1_CLICKED`. -/
def BUTTON1_CLICKED : Nat := 4

/-- The curses event bit `BUTTON1_DOUBLE_CLICKED`. -/
def BUTTON1_DOUBLE_CLICKED : Nat := 8

/-- The session state the key loop of `start_gui` updates. -/
structure Session where
  file_offset : Nat
  mode : Int
  display : Int
deriving DecidableEq

/-- Embedding of `mouse_clicked`; the result holds the new `*file_offset`
and `*mode` (`display` is passed through). -/
def mouse_clicked (s : Session) (offset_index : List Nat)
    (width height total_blocks mouse_x mouse_y : Int) (action : Nat) :
    Option Session :=
  if s.mode = OVERVIEW_MODE ∧
      (action = BUTTON1_CLICKED ∨ action = BUTTON1_DOUBLE_CLICKED) then
    if mouse_x < SIDE_MARGIN ∨ mouse_x > width - SIDE_MARGIN - 1
        ∨ mouse_y < 2 ∨ mouse_y > height - 8 then
      some s
    else
      let index := (width - SIDE_MARGIN * 2) * (mouse_y - 2) + mouse_x - SIDE_MARGIN
      let after_jump : Option Session :=
        if index < total_blocks ∧ index ≥ 0 then
          (read_index offset_index index).map
            (fun offset => { s with file_offset := offset })
        else some s
      after_jump.map (fun s1 =>
        if action = BUTTON1_DOUBLE_CLICKED then { s1 with mode := HEX_MODE } else s1)
  else some s

/-- A key code returned by `wgetch`, with the mouse event `nc_getmouse`
reports for `KEY_MOUSE`.  `q`, `ESC` (which end the loop) and `KEY_RESIZE`
(which rebuilds the partition) are not part of a navigation sequence. -/
inductive Key where
  | KEY_LEFT
  | KEY_RIGHT
  | KEY_UP
  | KEY_DOWN
  | KEY_NPAGE
  | KEY_PPAGE
  | char_m
  | char_v
  | KEY_MOUSE (getmouse_ok : Bool) (x y : Int) (bstate : Nat)
  | unhandled
deriving DecidableEq

/-- The `switch (key_pressed)` of the key loop of `start_gui`. -/
def start_gui_switch (width height total_blocks : Int) (offset_index : List Nat)
    (largest_file_size : Nat) (s : Session) : Key → Option Session
  | Key.KEY_LEFT =>
    if s.mode = OVERVIEW_MODE then
      (calculate_offset s.file_offset offset_index width total_blocks LEFT_BLOCK
        largest_file_size).map (fun offset => { s with file_offset := offset })
    else some s
  | Key.KEY_RIGHT =>
    if s.mode = OVERVIEW_MODE then
      (calculate_offset s.file_offset offset_index width total_blocks RIGHT_BLOCK
        largest_file_size).map (fun offset => { s with file_offset := offset })
    else some s
  | Key.KEY_UP =>
    if s.mode = OVERVIEW_MODE then
      (calculate_offset s.file_offset offset_index width total_blocks UP_ROW
        largest_file_size).map (fun offset => { s with file_offset := offset })
    else if s.mode = HEX_MODE then
      (calculate_offset s.file_offset offset_index width total_blocks UP_LINE
        largest_file_size).map (fun offset => { s with file_offset := offset })
    else some s
  | Key.KEY_DOWN =>
    if s.mode = OVERVIEW_MODE then
      (calculate_offset s.file_offset offset_index width total_blocks DOWN_ROW
        largest_file_size).map (fun offset => { s with file_offset := offset })
    else if s.mode = HEX_MODE then
      (calculate_offset s.file_offset offset_index width total_blocks DOWN_LINE
        largest_file_size).map (fun offset => { s with file_offset := offset })
    else some s
  | Key.KEY_NPAGE =>
    (calculate_offset s.file_offset offset_index width total_blocks DOWN_LINE
      largest_file_size).map (fun offset => { s with file_offset := offset })
  | Key.KEY_PPAGE =>
    (calculate_offset s.file_offset offset_index width total_blocks UP_LINE
      largest_file_size).map (fun offset => { s with file_offset := offset })
  | Key.char_m =>
    if s.display = ASCII_VIEW then some { s with display := HEX_VIEW }
    else some { s with display := ASCII_VIEW }
  | Key.char_v =>
    if s.mode = OVERVIEW_MODE then some { s with mode := HEX_MODE }
    else some { s with mode := OVERVIEW_MODE }
  | Key.KEY_MOUSE getmouse_ok x y bstate =>
    if getmouse_ok then
      let after_single : Option Session :=
        if bstate &&& BUTTON1_CLICKED ≠ 0 then
          mouse_clicked s offset_index width height total_blocks x y BUTTON1_CLICKED
        else some s
      match after_single with
      | none => none
      | some s1 =>
        if bstate &&& BUTTON1_DOUBLE_CLICKED ≠ 0 then
          mouse_clicked s1 offset_index width height total_blocks x y
            BUTTON1_DOUBLE_CLICKED
        else some s1
    else some s
  | Key.unhandled => some s

/-- The key loop of `start_gui` over the keys pressed before quitting. -/
def start_gui_loop (width height total_blocks : Int) (offset_index : List Nat)
    (largest_file_size : Nat) : Session → List Key → Option Session
  | s, [] => some s
  | s, key :: keys =>
    match start_gui_switch width height total_blocks offset_index
        largest_file_size s key with
    | none => none
    | some s1 =>
      start_gui_loop width height total_blocks offset_index largest_file_size s1 keys

/-- Embedding of the navigation state of `start_gui` on a terminal of the
given size: the geometry and the offset index are computed, the session
starts at offset 0 in overview mode and hex view, and the keys are
dispatched.  Painting (`generate_screen`) and the block cache do not feed
back into the session state. -/
def start_gui (width height : Int) (largest_file_size : Nat) (keys : List Key) :
    Option Session :=
  match calculate_dimensions width height largest_file_size with
  | none => none
  | some d =>
    match generate_offsets d.total_blocks d.bytes_per_block
        d.blocks_with_excess_byte with
    | none => none
    | some offset_index =>
      start_gui_loop d.width d.height d.total_blocks offset_index largest_file_size
        { file_offset := 0, mode := OVERVIEW_MODE, display := HEX_VIEW } keys

/-! ## Painting (`display_offsets`, `draw_hex_data`, the active block of
`generate_overview`) -/

/-- The screen position (row, column) at which `generate_overview` paints the
active block (lines 573-576); `/` and `%` are the truncating C operators. -/
def active_block_position (file_offset : Nat) (width total_blocks : Int)
    (offset_index : List Nat) : Option (Int × Int) :=
  (calculate_current_block total_blocks file_offset offset_index).map
    (fun current_block =>
      (Int.tdiv current_block (width - SIDE_MARGIN * 2) + 2,
       Int.tmod current_block (width - SIDE_MARGIN * 2) + SIDE_MARGIN))

/-! # Theorems

## The block partition -/

/-- In a partition whose blocks cover fewer than `2 ^ 64` bytes the size of a
block is computed without wrap-around. -/
theorem bytes_in_block_eq (total_blocks : Int) (bytes_per_block : Nat)
    (blocks_with_excess_byte : Int) (h1 : 1 ≤ total_blocks)
    (hM : total_blocks * (bytes_per_block : Int) + blocks_with_excess_byte
      < (ULONG_MOD : Int)) (i : Nat) :
    bytes_in_block bytes_per_block blocks_with_excess_byte i
      = bytes_per_block + (if (i : Int) < blocks_with_excess_byte then 1 else 0) := by
  unfold bytes_in_block
  split
  · rename_i hi
    have hb : (bytes_per_block : Int) ≤ total_blocks * (bytes_per_block : Int) := by
      nlinarith [Int.ofNat_nonneg bytes_per_block]
    have hlt : bytes_per_block + 1 < ULONG_MOD := by
      have : ((bytes_per_block + 1 : Nat) : Int) < (ULONG_MOD : Int) := by
        push_cast; omega
      exact_mod_cast this
    rw [Nat.mod_eq_of_lt hlt]
  · rfl

/-- The sum of the first `n` block sizes in closed form. -/
theorem sum_bytes_in_block (total_blocks : Int) (bytes_per_block : Nat)
    (blocks_with_excess_byte : Int) (h1 : 1 ≤ total_blocks)
    (hM : total_blocks * (bytes_per_block : Int) + blocks_with_excess_byte
      < (ULONG_MOD : Int)) (n : Nat) :
    ((List.range n).map (bytes_in_block bytes_per_block blocks_with_excess_byte)).sum
      = n * bytes_per_block + min n blocks_with_excess_byte.toNat := by
  induction n with
  | zero => simp
  | succ k ih =>
    rw [List.range_succ, List.map_append, List.sum_append, ih]
    simp only [List.map_cons, List.map_nil, List.sum_cons, List.sum_nil]
    rw [bytes_in_block_eq total_blocks bytes_per_block blocks_with_excess_byte h1 hM]
    split <;> rename_i hk
    · rw [Nat.succ_mul]; omega
    · rw [Nat.succ_mul]; omega

/-- The partition `calculate_dimensions` derives from a file size is
well-formed: the remainder is in `[0, total_blocks)` and the blocks cover the
file size. -/
theorem partition_of_size (total_blocks : Int) (largest_file_size : Nat)
    (h1 : 1 ≤ total_blocks) :
    0 ≤ blocks_with_excess_byte_of largest_file_size total_blocks ∧
    blocks_with_excess_byte_of largest_file_size total_blocks < total_blocks ∧
    total_blocks * (bytes_per_block_of largest_file_size total_blocks : Int)
      + blocks_with_excess_byte_of largest_file_size total_blocks
      = (largest_file_size : Int) := by
  unfold blocks_with_excess_byte_of bytes_per_block_of
  obtain ⟨n, rfl⟩ : ∃ n : Nat, total_blocks = (n : Int) :=
    ⟨total_blocks.toNat, by omega⟩
  have hn : 0 < n := by omega
  simp only [Int.toNat_ofNat]
  refine ⟨by omega, ?_, ?_⟩
  · exact_mod_cast Nat.mod_lt _ hn
  · exact_mod_cast Nat.div_add_mod largest_file_size n

/-- C1: for every `total_blocks >= 1` and every `largest_file_size` (an
`unsigned long`), with `bytes_per_block = largest_file_size / total_blocks`
and `blocks_with_excess_byte = largest_file_size % total_blocks` as
`calculate_dimensions` computes them, the block sizes `bytes_in_block i` of
the blocks `i < total_blocks` add up to `largest_file_size` exactly; the same
holds for the partition of every terminal size `calculate_dimensions`
accepts. -/
theorem C1_span_sum_eq_file_size (total_blocks : Int) (largest_file_size : Nat)
    (h1 : 1 ≤ total_blocks) (hsize : largest_file_size < ULONG_MOD) :
    span_sum total_blocks (bytes_per_block_of largest_file_size total_blocks)
        (blocks_with_excess_byte_of largest_file_size total_blocks)
      = largest_file_size ∧
    ∀ width height d, calculate_dimensions width height largest_file_size = some d →
      span_sum d.total_blocks d.bytes_per_block d.blocks_with_excess_byte
        = largest_file_size := by
  have key : ∀ tb : Int, 1 ≤ tb →
      span_sum tb (bytes_per_block_of largest_file_size tb)
        (blocks_with_excess_byte_of largest_file_size tb) = largest_file_size := by
    intro tb htb
    obtain ⟨h0, hlt, hsum⟩ := partition_of_size tb largest_file_size htb
    have hM : tb * (bytes_per_block_of largest_file_size tb : Int)
        + blocks_with_excess_byte_of largest_file_size tb < (ULONG_MOD : Int) := by
      rw [hsum]; exact_mod_cast hsize
    unfold span_sum
    rw [sum_bytes_in_block tb _ _ htb hM]
    have hmin : min tb.toNat (blocks_with_excess_byte_of largest_file_size tb).toNat
        = (blocks_with_excess_byte_of largest_file_size tb).toNat := by omega
    rw [hmin]
    have : ((tb.toNat * bytes_per_block_of largest_file_size tb
        + (blocks_with_excess_byte_of largest_file_size tb).toNat : Nat) : Int)
        = (largest_file_size : Int) := by
      push_cast
      rw [Int.toNat_of_nonneg (by omega), Int.toNat_of_nonneg h0]
      exact hsum
    exact_mod_cast this
  refine ⟨key total_blocks h1, ?_⟩
  intro width height d hd
  unfold calculate_dimensions at hd
  split at hd
  · cases hd
  · rename_i hguard
    simp only [Option.some.injEq] at hd
    subst hd
    simp only
    apply key
    simp only [SIDE_MARGIN, VERTICAL_BLACK_SPACE]
    have hw : (6 : Int) ≤ width - 2 * 2 := by omega
    have hh : (5 : Int) ≤ height - 11 := by omega
    nlinarith

/-- Witness for C1: a 100-byte file on a 10 x 16 terminal (30 blocks). -/
theorem C1_span_sum_eq_file_size_witness :
    span_sum 30 (bytes_per_block_of 100 30) (blocks_with_excess_byte_of 100 30) = 100 ∧
    ∀ width height d, calculate_dimensions width height 100 = some d →
      span_sum d.total_blocks d.bytes_per_block d.blocks_with_excess_byte = 100 :=
  C1_span_sum_eq_file_size 30 100 (by decide) (by decide)

/-! ## The offset index -/

/-- No block start of a partition covering fewer than `2 ^ 64` bytes
wraps around. -/
theorem block_start_lt (total_blocks : Int) (bytes_per_block : Nat)
    (blocks_with_excess_byte : Int) (hr0 : 0 ≤ blocks_with_excess_byte)
    (hM : total_blocks * (bytes_per_block : Int) + blocks_with_excess_byte
      < (ULONG_MOD : Int)) (i : Nat) (hi : (i : Int) ≤ total_blocks) :
    i * bytes_per_block + min i blocks_with_excess_byte.toNat < ULONG_MOD := by
  have hmul : (i : Int) * (bytes_per_block : Int)
      ≤ total_blocks * (bytes_per_block : Int) :=
    Int.mul_le_mul_of_nonneg_right hi (Int.ofNat_nonneg _)
  have : ((i * bytes_per_block + min i blocks_with_excess_byte.toNat : Nat) : Int)
      < (ULONG_MOD : Int) := by
    push_cast
    have hmin : ((min i blocks_with_excess_byte.toNat : Nat) : Int)
        ≤ blocks_with_excess_byte := by omega
    push_cast at hmin
    omega
  exact_mod_cast this

/-- The loop of `generate_offsets`, entered at block `i` with the running
offset equal to the start of block `i`, returns with enough fuel, keeps the
entries before `i` and stores the block starts from `i` on. -/
theorem generate_offsets_loop_spec (total_blocks : Int) (bytes_per_block : Nat)
    (blocks_with_excess_byte : Int) (h1 : 1 ≤ total_blocks)
    (hr0 : 0 ≤ blocks_with_excess_byte)
    (hM : total_blocks * (bytes_per_block : Int) + blocks_with_excess_byte
      < (ULONG_MOD : Int)) :
    ∀ (fuel i : Nat) (a : List Nat), (i : Int) ≤ total_blocks →
      a.length = total_blocks.toNat → total_blocks.toNat - i < fuel →
      ∃ res, generate_offsets_loop total_blocks bytes_per_block
          blocks_with_excess_byte fuel i
          (i * bytes_per_block + min i blocks_with_excess_byte.toNat) a = some res ∧
        res.length = total_blocks.toNat ∧
        (∀ k, k < i → res[k]? = a[k]?) ∧
        (∀ k, i ≤ k → (k : Int) < total_blocks →
          res[k]? = some (k * bytes_per_block + min k blocks_with_excess_byte.toNat)) := by
  intro fuel
  induction fuel with
  | zero => intro i a _ _ hf; omega
  | succ fuel ih =>
    intro i a hi hlen hf
    unfold generate_offsets_loop
    by_cases hlt : (i : Int) < total_blocks
    · simp only [hlt, if_true]
      have hnext : (if (i : Int) < blocks_with_excess_byte then
            (i * bytes_per_block + min i blocks_with_excess_byte.toNat
              + (bytes_per_block + 1)) % ULONG_MOD
          else (i * bytes_per_block + min i blocks_with_excess_byte.toNat
              + bytes_per_block) % ULONG_MOD)
          = (i + 1) * bytes_per_block + min (i + 1) blocks_with_excess_byte.toNat := by
        have hb := block_start_lt total_blocks bytes_per_block
          blocks_with_excess_byte hr0 hM (i + 1) (by push_cast; omega)
        have hmul : (i + 1) * bytes_per_block = i * bytes_per_block + bytes_per_block :=
          Nat.succ_mul i bytes_per_block
        split <;> rename_i hc
        · have he : i * bytes_per_block + min i blocks_with_excess_byte.toNat
              + (bytes_per_block + 1)
              = (i + 1) * bytes_per_block + min (i + 1) blocks_with_excess_byte.toNat := by
            omega
          rw [he, Nat.mod_eq_of_lt hb]
        · have he : i * bytes_per_block + min i blocks_with_excess_byte.toNat
              + bytes_per_block
              = (i + 1) * bytes_per_block + min (i + 1) blocks_with_excess_byte.toNat := by
            omega
          rw [he, Nat.mod_eq_of_lt hb]
      rw [hnext]
      obtain ⟨res, hres, hl, hbefore, hafter⟩ :=
        ih (i + 1) (a.set i (i * bytes_per_block + min i blocks_with_excess_byte.toNat))
          (by push_cast; omega) (by simpa using hlen) (by omega)
      refine ⟨res, hres, hl, ?_, ?_⟩
      · intro k hk
        rw [hbefore k (by omega), List.getElem?_set_ne (by omega)]
      · intro k hik hkt
        by_cases hk : k = i
        · subst hk
          rw [hbefore k (by omega), List.getElem?_set_self (by omega)]
        · exact hafter k (by omega) hkt
    · simp only [hlt, if_false]
      exact ⟨a, rfl, hlen, fun _ _ => rfl, fun k hik hkt => by omega⟩

/-- The offset index of a partition covering fewer than `2 ^ 64` bytes, in
closed form. -/
theorem generate_offsets_spec (total_blocks : Int) (bytes_per_block : Nat)
    (blocks_with_excess_byte : Int) (h1 : 1 ≤ total_blocks)
    (hr0 : 0 ≤ blocks_with_excess_byte)
    (hM : total_blocks * (bytes_per_block : Int) + blocks_with_excess_byte
      < (ULONG_MOD : Int)) :
    ∃ offset_index,
      generate_offsets total_blocks bytes_per_block blocks_with_excess_byte
        = some offset_index ∧
      offset_index.length = total_blocks.toNat ∧
      ∀ k : Nat, (k : Int) < total_blocks →
        offset_index[k]?
          = some (k * bytes_per_block + min k blocks_with_excess_byte.toNat) := by
  obtain ⟨res, hres, hl, _, hafter⟩ :=
    generate_offsets_loop_spec total_blocks bytes_per_block blocks_with_excess_byte
      h1 hr0 hM (total_blocks.toNat + 1) 0 (List.replicate total_blocks.toNat 0)
      (by omega) (by simp) (by omega)
  refine ⟨res, ?_, hl, fun k hk => hafter k (Nat.zero_le k) hk⟩
  unfold generate_offsets
  simpa using hres

/-- C2: for every partition (`total_blocks >= 1`, `bytes_per_block`,
`blocks_with_excess_byte >= 0`) whose blocks cover fewer than `2 ^ 64` bytes,
`generate_offsets` returns an array of `total_blocks` entries with
`offset_index[0] = 0` and `offset_index[i] = offset_index[i-1] +
bytes_in_block (i-1)` for `1 <= i < total_blocks`; the array is
non-decreasing. -/
theorem C2_generate_offsets_cumulative (total_blocks : Int) (bytes_per_block : Nat)
    (blocks_with_excess_byte : Int) (h1 : 1 ≤ total_blocks)
    (hr0 : 0 ≤ blocks_with_excess_byte)
    (hM : total_blocks * (bytes_per_block : Int) + blocks_with_excess_byte
      < (ULONG_MOD : Int)) :
    ∃ offset_index,
      generate_offsets total_blocks bytes_per_block blocks_with_excess_byte
        = some offset_index ∧
      (offset_index.length : Int) = total_blocks ∧
      offset_index[0]? = some 0 ∧
      (∀ i : Nat, 1 ≤ i → (i : Int) < total_blocks →
        ∃ previous, offset_index[i - 1]? = some previous ∧
          offset_index[i]? = some
            (previous + bytes_in_block bytes_per_block blocks_with_excess_byte (i - 1))) ∧
      (∀ i j : Nat, i ≤ j → (j : Int) < total_blocks →
        ∃ a b, offset_index[i]? = some a ∧ offset_index[j]? = some b ∧ a ≤ b) := by
  obtain ⟨oi, hgen, hlen, hk⟩ :=
    generate_offsets_spec total_blocks bytes_per_block blocks_with_excess_byte h1 hr0 hM
  refine ⟨oi, hgen, by omega, ?_, ?_, ?_⟩
  · simpa using hk 0 (by omega)
  · intro i hi hit
    refine ⟨_, hk (i - 1) (by omega), ?_⟩
    rw [hk i hit, bytes_in_block_eq total_blocks bytes_per_block
      blocks_with_excess_byte h1 hM]
    obtain ⟨m, rfl⟩ : ∃ m, i = m + 1 := ⟨i - 1, by omega⟩
    simp only [Nat.add_sub_cancel]
    have hmul : (m + 1) * bytes_per_block = m * bytes_per_block + bytes_per_block :=
      Nat.succ_mul m bytes_per_block
    split <;> rename_i hc
    · congr 1; omega
    · congr 1; omega
  · intro i j hij hjt
    refine ⟨_, _, hk i (by omega), hk j hjt, ?_⟩
    have hmul : i * bytes_per_block ≤ j * bytes_per_block :=
      Nat.mul_le_mul_right _ hij
    omega

/-- Witness for C2: the partition of a 100-byte file into 30 blocks. -/
theorem C2_generate_offsets_cumulative_witness :
    ∃ offset_index,
      generate_offsets 30 3 10 = some offset_index ∧
      (offset_index.length : Int) = 30 ∧
      offset_index[0]? = some 0 ∧
      (∀ i : Nat, 1 ≤ i → (i : Int) < 30 →
        ∃ previous, offset_index[i - 1]? = some previous ∧
          offset_index[i]? = some (previous + bytes_in_block 3 10 (i - 1))) ∧
      (∀ i j : Nat, i ≤ j → (j : Int) < 30 →
        ∃ a b, offset_index[i]? = some a ∧ offset_index[j]? = some b ∧ a ≤ b) :=
  C2_generate_offsets_cumulative 30 3 10 (by decide) (by decide) (by decide)

/-- On an offset index in closed form, the loop of `calculate_current_block`
entered at a block `k <= i` returns `i` for every offset between the start of
block `i` and the strictly larger start of block `i + 1`. -/
theorem calculate_current_block_loop_spec (total_blocks : Int) (bytes_per_block : Nat)
    (blocks_with_excess_byte : Int) (offset_index : List Nat)
    (hoi : ∀ k : Nat, (k : Int) < total_blocks →
      offset_index[k]?
        = some (k * bytes_per_block + min k blocks_with_excess_byte.toNat))
    (i b : Nat) (hi : (i : Int) + 1 < total_blocks)
    (hlo : i * bytes_per_block + min i blocks_with_excess_byte.toNat ≤ b)
    (hhi : b < (i + 1) * bytes_per_block + min (i + 1) blocks_with_excess_byte.toNat) :
    ∀ (fuel k : Nat) (current_block : Int), k ≤ i → i + 2 - k < fuel →
      calculate_current_block_loop total_blocks b offset_index fuel k current_block
        = some (i : Int) := by
  have hmi : (i + 1) * bytes_per_block = i * bytes_per_block + bytes_per_block :=
    Nat.succ_mul i bytes_per_block
  intro fuel
  induction fuel with
  | zero => intro k _ _ hf; omega
  | succ fuel ih =>
    intro k current_block hk hf
    have hmk : (k + 1) * bytes_per_block = k * bytes_per_block + bytes_per_block :=
      Nat.succ_mul k bytes_per_block
    have hle : k * bytes_per_block ≤ i * bytes_per_block :=
      Nat.mul_le_mul_right _ hk
    unfold calculate_current_block_loop
    have hkt : (k : Int) < total_blocks := by omega
    have hkt1 : (k : Int) + 1 < total_blocks := by omega
    have hge : b ≥ k * bytes_per_block + min k blocks_with_excess_byte.toNat := by omega
    have hne : ¬ ((k + 1) * bytes_per_block + min (k + 1) blocks_with_excess_byte.toNat
        = k * bytes_per_block + min k blocks_with_excess_byte.toNat) := by omega
    simp only [hkt, hkt1, if_true, hoi k hkt, hoi (k + 1) (by push_cast; omega), hge, hne,
      if_false]
    by_cases hki : k = i
    · subst hki
      cases fuel with
      | zero => omega
      | succ fuel =>
        unfold calculate_current_block_loop
        have hk1 : ((k + 1 : Nat) : Int) < total_blocks := by push_cast; omega
        have hnot : ¬ (b ≥ (k + 1) * bytes_per_block
            + min (k + 1) blocks_with_excess_byte.toNat) := by omega
        simp only [hk1, if_true, hoi (k + 1) hk1, hnot, if_false]
    · exact ih (k + 1) (k : Int) (by omega) (by omega)

/-- C3: for every offset index built by `generate_offsets` (from a partition
with `total_blocks >= 1` and `blocks_with_excess_byte >= 0` covering fewer than
`2 ^ 64` bytes), every block `i` with `i + 1 < total_blocks` and every byte
offset `b` with `offset_index[i] <= b < offset_index[i+1]`,
`calculate_current_block` returns `i`, and `i` is the greatest index whose
entry is at most `b`. -/
theorem C3_calculate_current_block_locates (total_blocks : Int) (bytes_per_block : Nat)
    (blocks_with_excess_byte : Int) (h1 : 1 ≤ total_blocks)
    (hr0 : 0 ≤ blocks_with_excess_byte)
    (hM : total_blocks * (bytes_per_block : Int) + blocks_with_excess_byte
      < (ULONG_MOD : Int)) :
    ∃ offset_index,
      generate_offsets total_blocks bytes_per_block blocks_with_excess_byte
        = some offset_index ∧
      ∀ (i b lo hi : Nat), (i : Int) + 1 < total_blocks →
        offset_index[i]? = some lo → offset_index[i + 1]? = some hi →
        lo ≤ b → b < hi →
        calculate_current_block total_blocks b offset_index = some (i : Int) ∧
        ∀ (j entry : Nat), offset_index[j]? = some entry → entry ≤ b → j ≤ i := by
  obtain ⟨oi, hgen, hlen, hk⟩ :=
    generate_offsets_spec total_blocks bytes_per_block blocks_with_excess_byte h1 hr0 hM
  refine ⟨oi, hgen, ?_⟩
  intro i b lo hi hi1 hlo hhi hle hlt
  rw [hk i (by omega)] at hlo
  rw [hk (i + 1) (by push_cast; omega)] at hhi
  simp only [Option.some.injEq] at hlo hhi
  subst hlo hhi
  refine ⟨?_, ?_⟩
  · unfold calculate_current_block
    exact calculate_current_block_loop_spec total_blocks bytes_per_block
      blocks_with_excess_byte oi hk i b hi1 hle hlt (total_blocks.toNat + 1) 0 0
      (Nat.zero_le i) (by omega)
  · intro j entry hj hjb
    by_contra hcon
    have hjlt : j < oi.length := by
      by_contra hge
      rw [List.getElem?_eq_none (by omega)] at hj
      cases hj
    rw [hk j (by omega)] at hj
    simp only [Option.some.injEq] at hj
    have hmul : (i + 1) * bytes_per_block ≤ j * bytes_per_block :=
      Nat.mul_le_mul_right _ (by omega)
    omega

/-- Witness for C3: offset 18 lies in block 4 (bytes 16..19) of the index
of a 100-byte file cut into 30 blocks. -/
theorem C3_calculate_current_block_locates_witness :
    ∃ offset_index,
      generate_offsets 30 3 10 = some offset_index ∧
      offset_index[4]? = some 16 ∧ offset_index[5]? = some 20 ∧
      calculate_current_block 30 18 offset_index = some 4 := by
  obtain ⟨oi, hgen, h⟩ :=
    C3_calculate_current_block_locates 30 3 10 (by decide) (by decide) (by decide)
  have hoi : generate_offsets 30 3 10
      = some [0, 4, 8, 12, 16, 20, 24, 28, 32, 36, 40, 43, 46, 49, 52, 55, 58, 61, 64,
          67, 70, 73, 76, 79, 82, 85, 88, 91, 94, 97] := by decide
  rw [hoi] at hgen
  simp only [Option.some.injEq] at hgen
  subst hgen
  exact ⟨_, hoi, rfl, rfl,
    (h 4 18 16 20 (by decide) rfl rfl (by decide) (by decide)).1⟩

/-! ## The diff cache -/

/-- A read of zero bytes returns 0 and leaves the stream alone. -/
theorem fread_zero (fp : FILE) : fread 0 fp = (0, [], fp) := by
  simp [fread]

/-- A read of `size > 0` bytes, with the length of the data made explicit. -/
theorem fread_pos (size : Nat) (content : List Byte) (position : Nat)
    (hs : size ≠ 0) :
    fread size { content := content, position := position }
      = (if position + size ≤ content.length then 1 else 0,
         (content.drop position).take size
           ++ List.replicate (size - min size (content.length - position)) 0,
         { content := content
           position := position + min size (content.length - position) }) := by
  unfold fread
  simp only [hs, if_false, List.length_take, List.length_drop]
  congr 1
  by_cases h : position + size ≤ content.length
  · rw [if_pos h, if_pos (by omega)]
  · rw [if_neg h, if_neg (by omega)]

/-- On buffers of equal length the comparison loop finds a difference exactly
when the buffers are not equal. -/
theorem blocks_differ_eq_false_iff :
    ∀ (a b : List Byte), a.length = b.length → (blocks_differ a b = false ↔ a = b)
  | [], [], _ => by simp [blocks_differ]
  | [], _ :: _, h => by simp at h
  | _ :: _, [], h => by simp at h
  | x :: xs, y :: ys, h => by
    have ih := blocks_differ_eq_false_iff xs ys (by simpa using h)
    unfold blocks_differ
    by_cases hxy : x = y
    · simp [hxy, ih]
    · simp [hxy]

/-- The byte ranges of two files are equal as lists exactly when the files
agree on every byte position of the range. -/
theorem slice_eq_iff (file_one file_two : List Byte) (start size : Nat) :
    (file_one.drop start).take size = (file_two.drop start).take size ↔
      ∀ k, k < size → file_one[start + k]? = file_two[start + k]? := by
  constructor
  · intro h k hk
    have := congrArg (fun l => l[k]?) h
    simpa [List.getElem?_take, hk, List.getElem?_drop] using this
  · intro h
    apply List.ext_getElem?
    intro k
    by_cases hk : k < size
    · simp [List.getElem?_take, hk, List.getElem?_drop, h k hk]
    · simp [List.getElem?_take, hk]

/-- One iteration of the main loop of `generate_blocks` on a block without
bytes: both reads return 0, the block is marked empty and the loop ends. -/
theorem generate_blocks_loop_empty (total_blocks : Int) (bytes_per_block : Nat)
    (blocks_with_excess_byte : Int) (fuel i : Nat) (file_one file_two : FILE)
    (cache : List Nat) (hlt : (i : Int) < total_blocks)
    (hs0 : bytes_in_block bytes_per_block blocks_with_excess_byte i = 0) :
    generate_blocks_loop total_blocks bytes_per_block blocks_with_excess_byte
        (fuel + 1) i file_one file_two cache
      = some { block_cache := cache.set i BLOCK_EMPTY
               file_one := file_one
               file_two := file_two } := by
  rw [generate_blocks_loop]
  simp only [hlt, if_true, hs0, fread_zero, and_self, List.set_set]

/-- One iteration of the main loop of `generate_blocks` on a block of
`s > 0` bytes starting at `o`, when the larger file contains the block and
each cursor is at `o` or at the end of its shorter file: the entry of the
block becomes its classification, both cursors move to the end of the block
(or stay at the end of the file) and the loop goes on. -/
theorem generate_blocks_loop_step (total_blocks : Int) (bytes_per_block : Nat)
    (blocks_with_excess_byte : Int) (c1 c2 : List Byte) (fuel i o s p1 p2 : Nat)
    (cache : List Nat) (hlt : (i : Int) < total_blocks)
    (hs : bytes_in_block bytes_per_block blocks_with_excess_byte i = s)
    (hs0 : s ≠ 0) (hp1 : p1 = min o c1.length) (hp2 : p2 = min o c2.length)
    (hcover : o + s ≤ max c1.length c2.length) :
    generate_blocks_loop total_blocks bytes_per_block blocks_with_excess_byte
        (fuel + 1) i { content := c1, position := p1 }
        { content := c2, position := p2 } cache
      = generate_blocks_loop total_blocks bytes_per_block blocks_with_excess_byte
        fuel (i + 1) { content := c1, position := min (o + s) c1.length }
        { content := c2, position := min (o + s) c2.length }
        (cache.set i (classify_block_spec c1 c2 o s)) := by
  rw [generate_blocks_loop]
  simp only [hlt, if_true, hs]
  rw [fread_pos s c1 p1 hs0, fread_pos s c2 p2 hs0]
  simp only []
  have hn1 : p1 + min s (c1.length - p1) = min (o + s) c1.length := by omega
  have hn2 : p2 + min s (c2.length - p2) = min (o + s) c2.length := by omega
  rw [hn1, hn2]
  simp only [classify_block_spec, hs0, if_false, List.set_set]
  by_cases hA : o + s ≤ c1.length
  · have hA' : p1 + s ≤ c1.length := by omega
    by_cases hB : o + s ≤ c2.length
    · have hB' : p2 + s ≤ c2.length := by omega
      have hz1 : s - min s (c1.length - o) = 0 := by omega
      have hz2 : s - min s (c2.length - o) = 0 := by omega
      have hq1 : p1 = o := by omega
      have hq2 : p2 = o := by omega
      simp only [hA', hB', if_true, hz1, hz2, List.replicate_zero, List.append_nil,
        one_ne_zero, and_self, if_false, ne_eq, not_true_eq_false, hq1, hq2, hA, hB,
        true_and]
      have hiff := blocks_differ_eq_false_iff (List.take s (List.drop o c1))
        (List.take s (List.drop o c2))
        (by simp only [List.length_take, List.length_drop]; omega)
      rw [slice_eq_iff] at hiff
      by_cases hd : blocks_differ (List.take s (List.drop o c1))
          (List.take s (List.drop o c2)) = true
      · have hne : ¬ ∀ k, k < s → c1[o + k]? = c2[o + k]? := by
          intro hall
          have := hiff.mpr hall
          rw [hd] at this
          cases this
        rw [if_pos hd, if_neg hne]
      · have hall : ∀ k, k < s → c1[o + k]? = c2[o + k]? :=
          hiff.mp (by simpa using hd)
        rw [if_neg hd, if_pos hall]
    · have hB' : ¬ p2 + s ≤ c2.length := by omega
      simp only [hA', hB', if_true, if_false, one_ne_zero, false_and, ne_eq,
        not_false_eq_true, hB, and_false]
  · have hA' : ¬ p1 + s ≤ c1.length := by omega
    have hB' : p2 + s ≤ c2.length := by omega
    simp only [hA', hB', if_true, if_false, one_ne_zero, and_false, ne_eq,
      zero_ne_one, not_false_eq_true, hA, false_and]

/-- The end of every block of the partition of the larger file size lies
inside the larger file. -/
theorem block_end_le_max (total_blocks : Int) (bytes_per_block : Nat)
    (blocks_with_excess_byte : Int) (lfs : Nat) (h1 : 1 ≤ total_blocks)
    (hr0 : 0 ≤ blocks_with_excess_byte)
    (hM : total_blocks * (bytes_per_block : Int) + blocks_with_excess_byte
      < (ULONG_MOD : Int))
    (hmax : total_blocks * (bytes_per_block : Int) + blocks_with_excess_byte
      = (lfs : Int)) (i : Nat) (hlt : (i : Int) < total_blocks) :
    i * bytes_per_block + min i blocks_with_excess_byte.toNat
      + bytes_in_block bytes_per_block blocks_with_excess_byte i ≤ lfs ∧
    (i + 1) * bytes_per_block + min (i + 1) blocks_with_excess_byte.toNat
      = i * bytes_per_block + min i blocks_with_excess_byte.toNat
        + bytes_in_block bytes_per_block blocks_with_excess_byte i := by
  have hsi := bytes_in_block_eq total_blocks bytes_per_block
    blocks_with_excess_byte h1 hM i
  have hmi : (i + 1) * bytes_per_block = i * bytes_per_block + bytes_per_block :=
    Nat.succ_mul i bytes_per_block
  have hmul : ((i : Int) + 1) * (bytes_per_block : Int)
      ≤ total_blocks * (bytes_per_block : Int) :=
    Int.mul_le_mul_of_nonneg_right (by omega) (Int.ofNat_nonneg _)
  rw [add_mul, one_mul] at hmul
  rw [hsi]
  constructor
  · have hcast : ((i * bytes_per_block + min i blocks_with_excess_byte.toNat
        + (bytes_per_block + if (i : Int) < blocks_with_excess_byte then 1 else 0)
          : Nat) : Int) ≤ (lfs : Int) := by
      rw [← hmax]
      have hmin : ((min i blocks_with_excess_byte.toNat : Nat) : Int)
          ≤ blocks_with_excess_byte := by omega
      have hmin' : ((min i blocks_with_excess_byte.toNat : Nat) : Int)
          ≤ (i : Int) := by omega
      push_cast at hmin hmin' ⊢
      split <;> omega
    exact_mod_cast hcast
  · split <;> omega

/-- The main loop of `generate_blocks` on the partition of the larger file
size: entered at block `i` with both cursors at the start of block `i` (or at
the end of a shorter file) and the cache still empty from `i` on, it returns,
keeps the entries before `i` and classifies every block from `i` on as the
specification says. -/
theorem generate_blocks_loop_spec (total_blocks : Int) (bytes_per_block : Nat)
    (blocks_with_excess_byte : Int) (c1 c2 : List Byte) (h1 : 1 ≤ total_blocks)
    (hr0 : 0 ≤ blocks_with_excess_byte)
    (hM : total_blocks * (bytes_per_block : Int) + blocks_with_excess_byte
      < (ULONG_MOD : Int))
    (hmax : total_blocks * (bytes_per_block : Int) + blocks_with_excess_byte
      = ((max c1.length c2.length : Nat) : Int)) :
    ∀ (fuel i p1 p2 : Nat) (cache : List Nat), (i : Int) ≤ total_blocks →
      p1 = min (i * bytes_per_block + min i blocks_with_excess_byte.toNat) c1.length →
      p2 = min (i * bytes_per_block + min i blocks_with_excess_byte.toNat) c2.length →
      cache.length = total_blocks.toNat →
      (∀ k, i ≤ k → (k : Int) < total_blocks → cache[k]? = some BLOCK_EMPTY) →
      total_blocks.toNat - i < fuel →
      ∃ scan, generate_blocks_loop total_blocks bytes_per_block blocks_with_excess_byte
          fuel i { content := c1, position := p1 } { content := c2, position := p2 }
          cache = some scan ∧
        scan.block_cache.length = total_blocks.toNat ∧
        (∀ k, k < i → scan.block_cache[k]? = cache[k]?) ∧
        (∀ k, i ≤ k → (k : Int) < total_blocks →
          scan.block_cache[k]? = some (classify_block_spec c1 c2
            (k * bytes_per_block + min k blocks_with_excess_byte.toNat)
            (bytes_in_block bytes_per_block blocks_with_excess_byte k))) := by
  intro fuel
  induction fuel with
  | zero => intro i p1 p2 cache _ _ _ _ _ hf; omega
  | succ fuel ih =>
    intro i p1 p2 cache hi hp1 hp2 hlen hempty hf
    by_cases hlt : (i : Int) < total_blocks
    · have hilen : i < cache.length := by omega
      by_cases hs0 : bytes_in_block bytes_per_block blocks_with_excess_byte i = 0
      · rw [generate_blocks_loop_empty total_blocks bytes_per_block
          blocks_with_excess_byte fuel i _ _ cache hlt hs0]
        refine ⟨_, rfl, by simp [hlen], ?_, ?_⟩
        · intro k hk
          exact List.getElem?_set_ne (by omega)
        · intro k hik hkt
          have hsk : bytes_in_block bytes_per_block blocks_with_excess_byte k = 0 := by
            have e1 := bytes_in_block_eq total_blocks bytes_per_block
              blocks_with_excess_byte h1 hM i
            have e2 := bytes_in_block_eq total_blocks bytes_per_block
              blocks_with_excess_byte h1 hM k
            rw [hs0] at e1
            rw [e2]
            split at e1 <;> split <;> omega
          rw [hsk]
          simp only [classify_block_spec, if_true]
          by_cases hk : k = i
          · subst hk
            exact List.getElem?_set_self hilen
          · rw [← hempty k hik hkt]
            exact List.getElem?_set_ne (by omega)
      · obtain ⟨hcover, ho⟩ := block_end_le_max total_blocks bytes_per_block
          blocks_with_excess_byte _ h1 hr0 hM hmax i hlt
        rw [generate_blocks_loop_step total_blocks bytes_per_block
          blocks_with_excess_byte c1 c2 fuel i _ _ p1 p2 cache hlt rfl hs0 hp1 hp2 hcover,
          ← ho]
        obtain ⟨scan, hscan, hl, hbefore, hafter⟩ :=
          ih (i + 1) _ _ (cache.set i (classify_block_spec c1 c2
              (i * bytes_per_block + min i blocks_with_excess_byte.toNat)
              (bytes_in_block bytes_per_block blocks_with_excess_byte i)))
            (by push_cast; omega) rfl rfl (by simp [hlen])
            (fun k hik hkt => by
              rw [List.getElem?_set_ne (by omega)]; exact hempty k (by omega) hkt)
            (by omega)
        refine ⟨scan, hscan, hl, ?_, ?_⟩
        · intro k hk
          rw [hbefore k (by omega), List.getElem?_set_ne (by omega)]
        · intro k hik hkt
          by_cases hk : k = i
          · subst hk
            rw [hbefore k (by omega), List.getElem?_set_self hilen]
          · exact hafter k (by omega) hkt
    · unfold generate_blocks_loop
      simp only [hlt, if_false]
      exact ⟨_, rfl, hlen, fun _ _ => rfl, fun k hik hkt => by omega⟩

/-- The size `main` computes is the maximum of the two lengths. -/
theorem largest_file_size_of_eq (c1 c2 : List Byte) :
    largest_file_size_of c1 c2 = max c1.length c2.length := by
  unfold largest_file_size_of
  split <;> omega

/-- The cache `generate_blocks` builds on a partition of the larger file
size, from any position of the two cursors: every block is classified as the
specification says, with the block starts in closed form. -/
theorem generate_blocks_spec (file_one file_two : FILE) (total_blocks : Int)
    (bytes_per_block : Nat) (blocks_with_excess_byte : Int) (h1 : 1 ≤ total_blocks)
    (hr0 : 0 ≤ blocks_with_excess_byte)
    (hM : total_blocks * (bytes_per_block : Int) + blocks_with_excess_byte
      < (ULONG_MOD : Int))
    (hmax : total_blocks * (bytes_per_block : Int) + blocks_with_excess_byte
      = ((max file_one.content.length file_two.content.length : Nat) : Int)) :
    ∃ scan, generate_blocks file_one file_two total_blocks bytes_per_block
        blocks_with_excess_byte = some scan ∧
      scan.block_cache.length = total_blocks.toNat ∧
      ∀ k : Nat, (k : Int) < total_blocks →
        scan.block_cache[k]? = some (classify_block_spec file_one.content
          file_two.content (k * bytes_per_block + min k blocks_with_excess_byte.toNat)
          (bytes_in_block bytes_per_block blocks_with_excess_byte k)) := by
  obtain ⟨scan, hscan, hl, _, hafter⟩ :=
    generate_blocks_loop_spec total_blocks bytes_per_block blocks_with_excess_byte
      file_one.content file_two.content h1 hr0 hM hmax (total_blocks.toNat + 1) 0 0 0
      (List.replicate total_blocks.toNat BLOCK_EMPTY) (by omega) (by simp) (by simp)
      (by simp)
      (fun k _ hk => by
        rw [List.getElem?_replicate, if_pos (by omega)])
      (by omega)
  exact ⟨scan, hscan, hl, fun k hk => hafter k (Nat.zero_le k) hk⟩

/-- C4: for every pair of files (with their cursors anywhere) and every
`total_blocks >= 1`, with the partition computed from the larger file size (an
`unsigned long`), `generate_blocks` returns a cache of `total_blocks` entries
in which block `i`, over the bytes from `offset_index[i]` and of length
`bytes_in_block i`, is Empty if it has no bytes, Same if it has bytes, both
files contain the whole range and agree on every byte of it, and Different
otherwise. -/
theorem C4_generate_blocks_classification (file_one file_two : FILE)
    (total_blocks : Int) (h1 : 1 ≤ total_blocks)
    (hsize : largest_file_size_of file_one.content file_two.content < ULONG_MOD) :
    ∃ scan offset_index,
      generate_blocks file_one file_two total_blocks
        (bytes_per_block_of
          (largest_file_size_of file_one.content file_two.content) total_blocks)
        (blocks_with_excess_byte_of
          (largest_file_size_of file_one.content file_two.content) total_blocks)
        = some scan ∧
      generate_offsets total_blocks
        (bytes_per_block_of
          (largest_file_size_of file_one.content file_two.content) total_blocks)
        (blocks_with_excess_byte_of
          (largest_file_size_of file_one.content file_two.content) total_blocks)
        = some offset_index ∧
      (scan.block_cache.length : Int) = total_blocks ∧
      ∀ (i start : Nat), (i : Int) < total_blocks → offset_index[i]? = some start →
        scan.block_cache[i]? = some (classify_block_spec file_one.content
          file_two.content start
          (bytes_in_block
            (bytes_per_block_of
              (largest_file_size_of file_one.content file_two.content) total_blocks)
            (blocks_with_excess_byte_of
              (largest_file_size_of file_one.content file_two.content) total_blocks)
            i)) := by
  obtain ⟨h0, _, hsum⟩ := partition_of_size total_blocks
    (largest_file_size_of file_one.content file_two.content) h1
  have hM : total_blocks * (bytes_per_block_of
        (largest_file_size_of file_one.content file_two.content) total_blocks : Int)
      + blocks_with_excess_byte_of
        (largest_file_size_of file_one.content file_two.content) total_blocks
      < (ULONG_MOD : Int) := by
    rw [hsum]; exact_mod_cast hsize
  obtain ⟨oi, hgen, _, hoi⟩ := generate_offsets_spec total_blocks _ _ h1 h0 hM
  obtain ⟨scan, hscan, hl, hk⟩ := generate_blocks_spec file_one file_two total_blocks
    _ _ h1 h0 hM (by rw [hsum, largest_file_size_of_eq])
  refine ⟨scan, oi, hscan, hgen, by omega, ?_⟩
  intro i start hi hstart
  rw [hoi i hi] at hstart
  simp only [Option.some.injEq] at hstart
  rw [hk i hi, hstart]

/-- Witness for C4: a 3-byte file against a 2-byte file on 2 blocks. -/
theorem C4_generate_blocks_classification_witness :
    ∃ scan offset_index,
      generate_blocks { content := [1, 2, 3], position := 0 }
        { content := [1, 2], position := 1 } 2
        (bytes_per_block_of (largest_file_size_of [1, 2, 3] [1, 2]) 2)
        (blocks_with_excess_byte_of (largest_file_size_of [1, 2, 3] [1, 2]) 2)
        = some scan ∧
      generate_offsets 2
        (bytes_per_block_of (largest_file_size_of [1, 2, 3] [1, 2]) 2)
        (blocks_with_excess_byte_of (largest_file_size_of [1, 2, 3] [1, 2]) 2)
        = some offset_index ∧
      (scan.block_cache.length : Int) = 2 ∧
      ∀ (i start : Nat), (i : Int) < 2 → offset_index[i]? = some start →
        scan.block_cache[i]? = some (classify_block_spec [1, 2, 3] [1, 2] start
          (bytes_in_block
            (bytes_per_block_of (largest_file_size_of [1, 2, 3] [1, 2]) 2)
            (blocks_with_excess_byte_of (largest_file_size_of [1, 2, 3] [1, 2]) 2)
            i)) :=
  C4_generate_blocks_classification { content := [1, 2, 3], position := 0 }
    { content := [1, 2], position := 1 } 2 (by decide) (by decide)

/-- C5 (as stated, refuted): on a 100-byte file of zeros and a 60-byte file
that agrees with it on bytes 0..54 and first differs at offset 55, scanned
with 10 blocks of 10 bytes, blocks 7-9 are Different, not Empty: the cache
is Same for blocks 0-4 and Different for blocks 5-9. -/
theorem C5_scenario_counterexample :
    (List.replicate 100 (0 : Byte)).length = 100 ∧
    (List.replicate 55 (0 : Byte) ++ List.replicate 5 1).length = 60 ∧
    (∀ k, k < 55 → (List.replicate 100 (0 : Byte))[k]?
      = (List.replicate 55 (0 : Byte) ++ List.replicate 5 1)[k]?) ∧
    (List.replicate 100 (0 : Byte))[55]?
      ≠ (List.replicate 55 (0 : Byte) ++ List.replicate 5 1)[55]? ∧
    (generate_blocks { content := List.replicate 100 0, position := 0 }
        { content := List.replicate 55 0 ++ List.replicate 5 1, position := 0 }
        10 10 0).map (fun scan => scan.block_cache)
      = some [BLOCK_SAME, BLOCK_SAME, BLOCK_SAME, BLOCK_SAME, BLOCK_SAME,
          BLOCK_DIFFERENT, BLOCK_DIFFERENT, BLOCK_DIFFERENT, BLOCK_DIFFERENT,
          BLOCK_DIFFERENT] ∧
    (generate_blocks { content := List.replicate 100 0, position := 0 }
        { content := List.replicate 55 0 ++ List.replicate 5 1, position := 0 }
        10 10 0).map (fun scan => scan.block_cache)
      ≠ some [BLOCK_SAME, BLOCK_SAME, BLOCK_SAME, BLOCK_SAME, BLOCK_SAME,
          BLOCK_DIFFERENT, BLOCK_DIFFERENT, BLOCK_EMPTY, BLOCK_EMPTY, BLOCK_EMPTY] := by
  decide

/-- C5 (amended): for a 100-byte file and a 60-byte file that agree on bytes
0..54 and differ at offset 55, scanned by `generate_blocks` with
`total_blocks = 10`, `bytes_per_block = 10` and `blocks_with_excess_byte = 0`,
the cache is: blocks 0-4 Same, blocks 5-9 Different (block 5 by a byte
mismatch, blocks 6-9 because the second file has ended while the first has
not). -/
theorem C5_scenario_cache (file_one file_two : FILE)
    (hlen1 : file_one.content.length = 100) (hlen2 : file_two.content.length = 60)
    (hagree : ∀ k, k < 55 → file_one.content[k]? = file_two.content[k]?)
    (hdiff : file_one.content[55]? ≠ file_two.content[55]?) :
    (generate_blocks file_one file_two 10 10 0).map (fun scan => scan.block_cache)
      = some [BLOCK_SAME, BLOCK_SAME, BLOCK_SAME, BLOCK_SAME, BLOCK_SAME,
          BLOCK_DIFFERENT, BLOCK_DIFFERENT, BLOCK_DIFFERENT, BLOCK_DIFFERENT,
          BLOCK_DIFFERENT] := by
  obtain ⟨scan, hscan, hl, hk⟩ := generate_blocks_spec file_one file_two 10 10 0
    (by decide) (by decide) (by decide) (by rw [hlen1, hlen2]; decide)
  have hclass : ∀ k : Nat, k < 10 →
      classify_block_spec file_one.content file_two.content
        (k * 10 + min k (0 : Int).toNat) (bytes_in_block 10 0 k)
        = if k < 5 then BLOCK_SAME else BLOCK_DIFFERENT := by
    intro k hk10
    have hb : bytes_in_block 10 0 k = 10 := by
      unfold bytes_in_block
      rw [if_neg (by omega)]
    have hst : k * 10 + min k (0 : Int).toNat = k * 10 := by simp
    rw [hb, hst]
    unfold classify_block_spec
    rw [if_neg (by decide), hlen1, hlen2]
    by_cases h5 : k < 5
    · rw [if_pos h5, if_pos]
      exact ⟨by omega, by omega, fun j hj => hagree _ (by omega)⟩
    · rw [if_neg h5, if_neg]
      rintro ⟨_, h60, hall⟩
      have hk5 : k = 5 := by omega
      subst hk5
      exact hdiff (hall 5 (by decide))
  rw [hscan]
  simp only [Option.map_some', Option.some.injEq]
  apply List.ext_getElem?
  intro k
  by_cases hk10 : k < 10
  · rw [hk k (by omega), hclass k hk10]
    interval_cases k <;> rfl
  · rw [List.getElem?_eq_none (by omega), List.getElem?_eq_none (by simp; omega)]

/-- Witness for C5 (amended): a file of 100 zeros against 55 zeros followed
by 5 ones. -/
theorem C5_scenario_cache_witness :
    (generate_blocks { content := List.replicate 100 0, position := 0 }
        { content := List.replicate 55 0 ++ List.replicate 5 1, position := 0 }
        10 10 0).map (fun scan => scan.block_cache)
      = some [BLOCK_SAME, BLOCK_SAME, BLOCK_SAME, BLOCK_SAME, BLOCK_SAME,
          BLOCK_DIFFERENT, BLOCK_DIFFERENT, BLOCK_DIFFERENT, BLOCK_DIFFERENT,
          BLOCK_DIFFERENT] :=
  C5_scenario_cache { content := List.replicate 100 0, position := 0 }
    { content := List.replicate 55 0 ++ List.replicate 5 1, position := 0 }
    (by decide) (by decide) (by decide) (by decide)

/-- Whatever the files and the partition, the main loop of `generate_blocks`
entered at block `i` with the cache empty from `i` on returns, keeps the
entries before `i`, and from `i` on an empty entry is followed by empty entries
only. -/
theorem generate_blocks_loop_suffix (total_blocks : Int) (bytes_per_block : Nat)
    (blocks_with_excess_byte : Int) :
    ∀ (fuel i : Nat) (file_one file_two : FILE) (cache : List Nat),
      cache.length = total_blocks.toNat →
      (∀ k, i ≤ k → k < cache.length → cache[k]? = some BLOCK_EMPTY) →
      total_blocks.toNat - i < fuel →
      ∃ scan, generate_blocks_loop total_blocks bytes_per_block blocks_with_excess_byte
          fuel i file_one file_two cache = some scan ∧
        scan.block_cache.length = cache.length ∧
        (∀ k, k < i → scan.block_cache[k]? = cache[k]?) ∧
        (∀ a b, i ≤ a → a < b → b < cache.length →
          scan.block_cache[a]? = some BLOCK_EMPTY →
          scan.block_cache[b]? = some BLOCK_EMPTY) := by
  intro fuel
  induction fuel with
  | zero => intro i _ _ cache _ _ hf; omega
  | succ fuel ih =>
    intro i file_one file_two cache hlen hempty hf
    rw [generate_blocks_loop]
    by_cases hlt : (i : Int) < total_blocks
    · have hilen : i < cache.length := by omega
      have cont : ∀ (v : Nat) (g1 g2 : FILE), v ≠ BLOCK_EMPTY →
          ∃ scan, generate_blocks_loop total_blocks bytes_per_block
              blocks_with_excess_byte fuel (i + 1) g1 g2 (cache.set i v) = some scan ∧
            scan.block_cache.length = cache.length ∧
            (∀ k, k < i → scan.block_cache[k]? = cache[k]?) ∧
            (∀ a b, i ≤ a → a < b → b < cache.length →
              scan.block_cache[a]? = some BLOCK_EMPTY →
              scan.block_cache[b]? = some BLOCK_EMPTY) := by
        intro v g1 g2 hv
        obtain ⟨scan, hscan, hl, hbefore, hsuffix⟩ :=
          ih (i + 1) g1 g2 (cache.set i v) (by simp [hlen])
            (fun k hik hkl => by
              rw [List.getElem?_set_ne (by omega)]
              exact hempty k (by omega) (by simpa using hkl))
            (by omega)
        refine ⟨scan, hscan, by simpa using hl, ?_, ?_⟩
        · intro k hk
          rw [hbefore k (by omega), List.getElem?_set_ne (by omega)]
        · intro a b hia hab hb ha
          by_cases hai : a = i
          · subst hai
            rw [hbefore a (by omega), List.getElem?_set_self hilen] at ha
            simp only [Option.some.injEq] at ha
            exact absurd ha hv
          · exact hsuffix a b (by omega) hab (by simpa using hb) ha
      simp only [hlt, if_true, List.set_set]
      split
      · refine ⟨_, rfl, by simp, ?_, ?_⟩
        · intro k hk
          exact List.getElem?_set_ne (by omega)
        · intro a b hia hab hb _
          simp only
          rw [List.getElem?_set_ne (by omega)]
          exact hempty b (by omega) hb
      · split
        · exact cont BLOCK_DIFFERENT _ _ (by decide)
        · split
          · exact cont BLOCK_DIFFERENT _ _ (by decide)
          · exact cont BLOCK_SAME _ _ (by decide)
    · simp only [hlt, if_false]
      refine ⟨_, rfl, rfl, fun _ _ => rfl, ?_⟩
      intro a b hia hab hb _
      exact hempty b (by omega) hb

/-- C6: for every pair of files and every partition, `generate_blocks`
returns a cache in which, if block `i` is Empty, every block `j` with
`i < j < total_blocks` is Empty too. -/
theorem C6_empty_blocks_form_suffix (file_one file_two : FILE) (total_blocks : Int)
    (bytes_per_block : Nat) (blocks_with_excess_byte : Int) :
    ∃ scan, generate_blocks file_one file_two total_blocks bytes_per_block
        blocks_with_excess_byte = some scan ∧
      scan.block_cache.length = total_blocks.toNat ∧
      ∀ i j : Nat, i < j → (j : Int) < total_blocks →
        scan.block_cache[i]? = some BLOCK_EMPTY →
        scan.block_cache[j]? = some BLOCK_EMPTY := by
  obtain ⟨scan, hscan, hl, _, hsuffix⟩ :=
    generate_blocks_loop_suffix total_blocks bytes_per_block blocks_with_excess_byte
      (total_blocks.toNat + 1) 0 (fseek_set_zero file_one) (fseek_set_zero file_two)
      (List.replicate total_blocks.toNat BLOCK_EMPTY) (by simp)
      (fun k _ hk => by
        rw [List.getElem?_replicate, if_pos (by simpa using hk)])
      (by omega)
  refine ⟨scan, hscan, by simpa using hl, ?_⟩
  intro i j hij hj hi
  exact hsuffix i j (Nat.zero_le i) hij (by simp; omega) hi

/-- C7 (as stated, refuted): a 1-byte file compared against itself on a
10 x 16 terminal (30 blocks, partition computed from size 1) yields one Same
block followed by 29 Empty blocks, not 30 Same blocks. -/
theorem C7_self_comparison_counterexample :
    (calculate_dimensions 10 16 1).map (fun d => d.total_blocks) = some 30 ∧
    (generate_blocks { content := [0], position := 0 } { content := [0], position := 0 }
        30 (bytes_per_block_of 1 30) (blocks_with_excess_byte_of 1 30)).map
        (fun scan => scan.block_cache)
      = some (BLOCK_SAME :: List.replicate 29 BLOCK_EMPTY) ∧
    (generate_blocks { content := [0], position := 0 } { content := [0], position := 0 }
        30 (bytes_per_block_of 1 30) (blocks_with_excess_byte_of 1 30)).map
        (fun scan => scan.block_cache)
      ≠ some (List.replicate 30 BLOCK_SAME) := by
  decide

/-- C7 (amended): for every file content `A` (of a size that fits in
`unsigned long`) and every `total_blocks >= 1` with the partition computed
from `|A|`, `generate_blocks` comparing `A` against itself yields a cache of
`total_blocks` entries in which entry `i` is Same when `i < |A|` and Empty
when `|A| <= i`; every entry is Same when `|A| >= total_blocks`. -/
theorem C7_self_comparison (content : List Byte) (position_one position_two : Nat)
    (total_blocks : Int) (h1 : 1 ≤ total_blocks) (hsize : content.length < ULONG_MOD) :
    ∃ scan,
      generate_blocks { content := content, position := position_one }
        { content := content, position := position_two } total_blocks
        (bytes_per_block_of content.length total_blocks)
        (blocks_with_excess_byte_of content.length total_blocks) = some scan ∧
      (scan.block_cache.length : Int) = total_blocks ∧
      (∀ i : Nat, (i : Int) < total_blocks →
        scan.block_cache[i]?
          = some (if i < content.length then BLOCK_SAME else BLOCK_EMPTY)) ∧
      (total_blocks ≤ (content.length : Int) →
        ∀ i : Nat, (i : Int) < total_blocks → scan.block_cache[i]? = some BLOCK_SAME) := by
  obtain ⟨h0, hrlt, hsum⟩ := partition_of_size total_blocks content.length h1
  have hM : total_blocks * (bytes_per_block_of content.length total_blocks : Int)
      + blocks_with_excess_byte_of content.length total_blocks < (ULONG_MOD : Int) := by
    rw [hsum]; exact_mod_cast hsize
  obtain ⟨scan, hscan, hl, hk⟩ := generate_blocks_spec
    { content := content, position := position_one }
    { content := content, position := position_two } total_blocks
    _ _ h1 h0 hM (by simpa using hsum)
  have hentry : ∀ i : Nat, (i : Int) < total_blocks →
      scan.block_cache[i]?
        = some (if i < content.length then BLOCK_SAME else BLOCK_EMPTY) := by
    intro i hi
    rw [hk i hi]
    obtain ⟨hcover, _⟩ := block_end_le_max total_blocks _ _ content.length h1 h0 hM
      hsum i hi
    have hsi := bytes_in_block_eq total_blocks
      (bytes_per_block_of content.length total_blocks)
      (blocks_with_excess_byte_of content.length total_blocks) h1 hM i
    have hpos : bytes_in_block (bytes_per_block_of content.length total_blocks)
        (blocks_with_excess_byte_of content.length total_blocks) i = 0
        ↔ ¬ i < content.length := by
      rw [hsi]
      by_cases hb : bytes_per_block_of content.length total_blocks = 0
      · rw [hb] at hsum ⊢
        simp only [Nat.cast_zero, mul_zero, zero_add] at hsum
        rw [hsum]
        split <;> omega
      · have hge : total_blocks
            ≤ total_blocks * (bytes_per_block_of content.length total_blocks : Int) := by
          have hbp : (1 : Int) ≤ (bytes_per_block_of content.length total_blocks : Int) := by
            omega
          nlinarith
        split <;> omega
    unfold classify_block_spec
    by_cases hz : bytes_in_block (bytes_per_block_of content.length total_blocks)
        (blocks_with_excess_byte_of content.length total_blocks) i = 0
    · rw [if_pos hz, if_neg (hpos.mp hz)]
    · have hin : i < content.length := by
        by_contra hc
        exact hz (hpos.mpr hc)
      rw [if_neg hz, if_pos ⟨hcover, hcover, fun _ _ => rfl⟩, if_pos hin]
  refine ⟨scan, hscan, by omega, hentry, ?_⟩
  intro hge i hi
  rw [hentry i hi, if_pos (by omega)]

/-- Witness for C7 (amended): a 3-byte file on 2 blocks. -/
theorem C7_self_comparison_witness :
    ∃ scan,
      generate_blocks { content := [7, 8, 9], position := 0 }
        { content := [7, 8, 9], position := 0 } 2
        (bytes_per_block_of [(7 : Byte), 8, 9].length 2)
        (blocks_with_excess_byte_of [(7 : Byte), 8, 9].length 2) = some scan ∧
      (scan.block_cache.length : Int) = 2 ∧
      (∀ i : Nat, (i : Int) < 2 →
        scan.block_cache[i]?
          = some (if i < [(7 : Byte), 8, 9].length then BLOCK_SAME else BLOCK_EMPTY)) ∧
      ((2 : Int) ≤ ([(7 : Byte), 8, 9].length : Int) →
        ∀ i : Nat, (i : Int) < 2 → scan.block_cache[i]? = some BLOCK_SAME) :=
  C7_self_comparison [7, 8, 9] 0 0 2 (by decide) (by decide)

/-! ## Navigation -/

/-- On an array of `total_blocks` entries the loop of
`calculate_current_block` reads inside the array only, returns with enough
fuel, and keeps `current_block` in `[0, total_blocks - 1]`. -/
theorem calculate_current_block_loop_in_range (total_blocks : Int) (file_offset : Nat)
    (offset_index : List Nat) (hlen : (offset_index.length : Int) = total_blocks) :
    ∀ (fuel i : Nat) (current_block : Int), 0 ≤ current_block →
      current_block < total_blocks → total_blocks.toNat - i < fuel →
      ∃ result, calculate_current_block_loop total_blocks file_offset offset_index
          fuel i current_block = some result ∧ 0 ≤ result ∧ result < total_blocks := by
  intro fuel
  induction fuel with
  | zero => intro i _ _ _ hf; omega
  | succ fuel ih =>
    intro i current_block h0 hlt hf
    rw [calculate_current_block_loop]
    by_cases hi : (i : Int) < total_blocks
    · obtain ⟨entry, hget⟩ : ∃ entry, offset_index[i]? = some entry :=
        ⟨_, List.getElem?_eq_getElem (by omega)⟩
      simp only [hi, if_true, hget]
      split
      · by_cases hi1 : (i : Int) + 1 < total_blocks
        · obtain ⟨next, hget1⟩ : ∃ next, offset_index[i + 1]? = some next :=
            ⟨_, List.getElem?_eq_getElem (by omega)⟩
          simp only [hi1, if_true, hget1]
          split
          · exact ⟨_, rfl, by omega, hi⟩
          · exact ih (i + 1) (i : Int) (by omega) hi (by omega)
        · simp only [hi1, if_false]
          exact ih (i + 1) (i : Int) (by omega) hi (by omega)
      · exact ⟨_, rfl, h0, hlt⟩
    · simp only [hi, if_false]
      exact ⟨_, rfl, h0, hlt⟩

/-- On an array of `total_blocks >= 1` entries `calculate_current_block`
returns a block in `[0, total_blocks - 1]`. -/
theorem calculate_current_block_in_range (total_blocks : Int) (file_offset : Nat)
    (offset_index : List Nat) (h1 : 1 ≤ total_blocks)
    (hlen : (offset_index.length : Int) = total_blocks) :
    ∃ current_block, calculate_current_block total_blocks file_offset offset_index
        = some current_block ∧ 0 ≤ current_block ∧ current_block < total_blocks :=
  calculate_current_block_loop_in_range total_blocks file_offset offset_index hlen
    (total_blocks.toNat + 1) 0 0 (le_refl 0) (by omega) (by omega)

/-- A read at an index in `[0, total_blocks - 1]` of an array of
`total_blocks` entries succeeds. -/
theorem read_index_in_range (offset_index : List Nat) (total_blocks index : Int)
    (hlen : (offset_index.length : Int) = total_blocks) (h0 : 0 ≤ index)
    (hlt : index < total_blocks) :
    ∃ value, read_index offset_index index = some value ∧
      offset_index[index.toNat]? = some value := by
  unfold read_index
  rw [if_neg (by omega)]
  exact ⟨_, List.getElem?_eq_getElem (by omega), List.getElem?_eq_getElem (by omega)⟩

/-- The six shift types are different values. -/
theorem shift_types_distinct :
    LEFT_BLOCK ≠ RIGHT_BLOCK ∧ LEFT_BLOCK ≠ UP_ROW ∧ LEFT_BLOCK ≠ DOWN_ROW ∧
    LEFT_BLOCK ≠ UP_LINE ∧ LEFT_BLOCK ≠ DOWN_LINE ∧ RIGHT_BLOCK ≠ UP_ROW ∧
    RIGHT_BLOCK ≠ DOWN_ROW ∧ RIGHT_BLOCK ≠ UP_LINE ∧ RIGHT_BLOCK ≠ DOWN_LINE ∧
    UP_ROW ≠ DOWN_ROW ∧ UP_ROW ≠ UP_LINE ∧ UP_ROW ≠ DOWN_LINE ∧
    DOWN_ROW ≠ UP_LINE ∧ DOWN_ROW ≠ DOWN_LINE ∧ UP_LINE ≠ DOWN_LINE := by
  decide

/-- The block-wise moves of `calculate_offset`, once the current block is
known: each returns the entry of the offset index at the clamped block. -/
theorem calculate_offset_block_moves (file_offset : Nat) (offset_index : List Nat)
    (width total_blocks : Int) (largest_file_size : Nat) (current_block : Int)
    (hcur : calculate_current_block total_blocks file_offset offset_index
      = some current_block)
    (h0 : 0 ≤ current_block) (hlt : current_block < total_blocks) :
    calculate_offset file_offset offset_index width total_blocks LEFT_BLOCK
        largest_file_size
      = read_index offset_index (max 0 (current_block - 1)) ∧
    calculate_offset file_offset offset_index width total_blocks RIGHT_BLOCK
        largest_file_size
      = read_index offset_index (min (total_blocks - 1) (current_block + 1)) ∧
    calculate_offset file_offset offset_index width total_blocks UP_ROW
        largest_file_size
      = read_index offset_index (max 0 (current_block - (width - 2 * SIDE_MARGIN))) ∧
    calculate_offset file_offset offset_index width total_blocks DOWN_ROW
        largest_file_size
      = read_index offset_index
          (min (total_blocks - 1) (current_block + (width - 2 * SIDE_MARGIN))) := by
  obtain ⟨d1, d2, d3, _, _, d6, d7, _, _, d10, _, _, _, _, _⟩ := shift_types_distinct
  have hm : SIDE_MARGIN * 2 = 2 * SIDE_MARGIN := Int.mul_comm _ _
  refine ⟨?_, ?_, ?_, ?_⟩
  · unfold calculate_offset
    simp only [hcur, if_true]
    congr 1
    split <;> omega
  · unfold calculate_offset
    simp only [hcur, d1.symm, if_true, if_false]
    congr 1
    split <;> omega
  · unfold calculate_offset
    simp only [hcur, d2.symm, d6.symm, if_true, if_false, hm]
    congr 1
    split <;> omega
  · unfold calculate_offset
    simp only [hcur, d3.symm, d7.symm, d10.symm, if_true, if_false, hm]
    congr 1
    split <;> omega

/-- C8: for every current offset and every offset index of
`total_blocks >= 1` entries, `calculate_current_block` returns a block `cur`
and the block-wise moves of `calculate_offset` return
`offset_index[new_block]`, with `new_block = max(0, cur - 1)` for
`LEFT_BLOCK`, `min(total_blocks - 1, cur + 1)` for `RIGHT_BLOCK`,
`max(0, cur - grid_width)` for `UP_ROW` and
`min(total_blocks - 1, cur + grid_width)` for `DOWN_ROW`, where
`grid_width = width - 2 * SIDE_MARGIN`; the reads of `LEFT_BLOCK` and
`RIGHT_BLOCK` are always inside the array, those of `UP_ROW` and `DOWN_ROW`
whenever `grid_width >= 0`. -/
theorem C8_block_moves (file_offset : Nat) (offset_index : List Nat)
    (width total_blocks : Int) (largest_file_size : Nat) (h1 : 1 ≤ total_blocks)
    (hlen : (offset_index.length : Int) = total_blocks) :
    ∃ cur, calculate_current_block total_blocks file_offset offset_index = some cur ∧
      calculate_offset file_offset offset_index width total_blocks LEFT_BLOCK
          largest_file_size
        = read_index offset_index (max 0 (cur - 1)) ∧
      calculate_offset file_offset offset_index width total_blocks RIGHT_BLOCK
          largest_file_size
        = read_index offset_index (min (total_blocks - 1) (cur + 1)) ∧
      calculate_offset file_offset offset_index width total_blocks UP_ROW
          largest_file_size
        = read_index offset_index (max 0 (cur - (width - 2 * SIDE_MARGIN))) ∧
      calculate_offset file_offset offset_index width total_blocks DOWN_ROW
          largest_file_size
        = read_index offset_index
            (min (total_blocks - 1) (cur + (width - 2 * SIDE_MARGIN))) ∧
      (read_index offset_index (max 0 (cur - 1))).isSome = true ∧
      (read_index offset_index (min (total_blocks - 1) (cur + 1))).isSome = true ∧
      (0 ≤ width - 2 * SIDE_MARGIN →
        (read_index offset_index (max 0 (cur - (width - 2 * SIDE_MARGIN)))).isSome = true ∧
        (read_index offset_index
          (min (total_blocks - 1) (cur + (width - 2 * SIDE_MARGIN)))).isSome = true) := by
  obtain ⟨cur, hcur, h0, hlt⟩ :=
    calculate_current_block_in_range total_blocks file_offset offset_index h1 hlen
  obtain ⟨hL, hR, hU, hD⟩ := calculate_offset_block_moves file_offset offset_index
    width total_blocks largest_file_size cur hcur h0 hlt
  have hsome : ∀ index : Int, 0 ≤ index → index < total_blocks →
      (read_index offset_index index).isSome = true := by
    intro index hi0 hilt
    obtain ⟨value, hv, _⟩ := read_index_in_range offset_index total_blocks index hlen
      hi0 hilt
    rw [hv]; rfl
  refine ⟨cur, hcur, hL, hR, hU, hD, hsome _ (by omega) (by omega),
    hsome _ (by omega) (by omega), ?_⟩
  intro hgw
  exact ⟨hsome _ (by omega) (by omega), hsome _ (by omega) (by omega)⟩

/-- Witness for C8: offset 5 in the index `[0, 4, 8, 12, 16, 20]` on a
terminal of width 6 (`grid_width = 2`). -/
theorem C8_block_moves_witness :
    calculate_current_block 6 5 [0, 4, 8, 12, 16, 20] = some 1 ∧
    calculate_offset 5 [0, 4, 8, 12, 16, 20] 6 6 LEFT_BLOCK 24 = some 0 ∧
    calculate_offset 5 [0, 4, 8, 12, 16, 20] 6 6 RIGHT_BLOCK 24 = some 8 ∧
    calculate_offset 5 [0, 4, 8, 12, 16, 20] 6 6 UP_ROW 24 = some 0 ∧
    calculate_offset 5 [0, 4, 8, 12, 16, 20] 6 6 DOWN_ROW 24 = some 12 := by
  obtain ⟨cur, hcur, hL, hR, hU, hD, _⟩ :=
    C8_block_moves 5 [0, 4, 8, 12, 16, 20] 6 6 24 (by decide) (by decide)
  have hc : calculate_current_block 6 5 [0, 4, 8, 12, 16, 20] = some 1 := by decide
  rw [hc] at hcur
  simp only [Option.some.injEq] at hcur
  subst hcur
  refine ⟨hc, ?_, ?_, ?_, ?_⟩
  · rw [hL]; decide
  · rw [hR]; decide
  · rw [hU]; decide
  · rw [hD]; decide

/-- The modulus of `unsigned long` as a numeral. -/
theorem ULONG_MOD_eq : ULONG_MOD = 18446744073709551616 := by
  unfold ULONG_MOD; norm_num

/-- An `int` in `[0, 2 ^ 31)` converts to itself. -/
theorem to_unsigned_long_of_nonneg (value : Int) (h0 : 0 ≤ value)
    (hint : value < 2 ^ 31) : to_unsigned_long value = value.toNat := by
  unfold to_unsigned_long
  rw [ULONG_MOD_eq]
  rw [Int.emod_eq_of_lt h0 (by push_cast; omega)]

/-- The two line-wise moves of `calculate_offset`, once the current block is
known. -/
theorem calculate_offset_line_moves (file_offset : Nat) (offset_index : List Nat)
    (width total_blocks : Int) (largest_file_size : Nat) (current_block : Int)
    (hcur : calculate_current_block total_blocks file_offset offset_index
      = some current_block) :
    calculate_offset file_offset offset_index width total_blocks UP_LINE
        largest_file_size
      = (if (file_offset + ULONG_MOD
            - to_unsigned_long (offset_jump_of width largest_file_size)) % ULONG_MOD
            > file_offset then read_index offset_index 0
          else some ((file_offset + ULONG_MOD
            - to_unsigned_long (offset_jump_of width largest_file_size) + 1)
              % ULONG_MOD)) ∧
    calculate_offset file_offset offset_index width total_blocks DOWN_LINE
        largest_file_size
      = (if (file_offset + to_unsigned_long (offset_jump_of width largest_file_size))
            % ULONG_MOD ≥ largest_file_size then some file_offset
          else some ((file_offset
            + to_unsigned_long (offset_jump_of width largest_file_size)
            + ULONG_MOD - 1) % ULONG_MOD)) := by
  obtain ⟨_, _, _, d4, d5, _, _, d8, d9, _, d11, d12, d13, d14, d15⟩ :=
    shift_types_distinct
  constructor
  · unfold calculate_offset
    simp only [hcur, d4.symm, d8.symm, d11.symm, d13.symm, if_true, if_false]
  · unfold calculate_offset
    simp only [hcur, d5.symm, d9.symm, d12.symm, d14.symm, d15.symm, if_true, if_false]

/-- `UP_LINE` with an `offset_jump` in `[1, 2 ^ 31)` on an index that starts
at 0: the offset minus `offset_jump - 1`, clamped at 0. -/
theorem calculate_offset_up_line (file_offset : Nat) (offset_index : List Nat)
    (width total_blocks : Int) (largest_file_size : Nat) (h1 : 1 ≤ total_blocks)
    (hlen : (offset_index.length : Int) = total_blocks)
    (hzero : offset_index[0]? = some 0) (hx : file_offset < ULONG_MOD)
    (hj : 1 ≤ offset_jump_of width largest_file_size)
    (hint : offset_jump_of width largest_file_size < 2 ^ 31) :
    calculate_offset file_offset offset_index width total_blocks UP_LINE
        largest_file_size
      = some (file_offset - (offset_jump_of width largest_file_size - 1).toNat) := by
  obtain ⟨cur, hcur, _, _⟩ :=
    calculate_current_block_in_range total_blocks file_offset offset_index h1 hlen
  rw [(calculate_offset_line_moves file_offset offset_index width total_blocks
    largest_file_size cur hcur).1,
    to_unsigned_long_of_nonneg _ (by omega) hint]
  rw [ULONG_MOD_eq] at hx ⊢
  have hread : read_index offset_index 0 = some 0 := by
    unfold read_index
    simpa using hzero
  generalize offset_jump_of width largest_file_size = j at hj hint ⊢
  obtain ⟨n, rfl⟩ : ∃ n : Nat, j = (n : Int) := ⟨j.toNat, by omega⟩
  have hn : ((n : Int) - 1).toNat = n - 1 := by omega
  simp only [Int.toNat_ofNat, hn]
  have hn1 : 1 ≤ n := by omega
  have hn2 : n < 2147483648 := by omega
  by_cases hwrap : file_offset < n
  · rw [if_pos (by omega), hread]
    congr 1
    omega
  · rw [if_neg (by omega)]
    congr 1
    omega

/-- Whatever the partition, the loop of `generate_offsets` on an array of
`total_blocks` entries returns with enough fuel and keeps the length of the
array and the entries before the index it is entered at. -/
theorem generate_offsets_loop_total (total_blocks : Int) (bytes_per_block : Nat)
    (blocks_with_excess_byte : Int) :
    ∀ (fuel i offset : Nat) (a : List Nat), total_blocks.toNat - i < fuel →
      ∃ res, generate_offsets_loop total_blocks bytes_per_block
          blocks_with_excess_byte fuel i offset a = some res ∧
        res.length = a.length ∧ (∀ k, k < i → res[k]? = a[k]?) := by
  intro fuel
  induction fuel with
  | zero => intro i _ _ hf; omega
  | succ fuel ih =>
    intro i offset a hf
    rw [generate_offsets_loop]
    by_cases hlt : (i : Int) < total_blocks
    · simp only [hlt, if_true]
      obtain ⟨res, hres, hl, hbefore⟩ := ih (i + 1)
        (if (i : Int) < blocks_with_excess_byte then
          (offset + (bytes_per_block + 1)) % ULONG_MOD
         else (offset + bytes_per_block) % ULONG_MOD)
        (a.set i offset) (by omega)
      refine ⟨res, hres, by simpa using hl, ?_⟩
      intro k hk
      rw [hbefore k (by omega), List.getElem?_set_ne (by omega)]
    · simp only [hlt, if_false]
      exact ⟨a, rfl, rfl, fun _ _ => rfl⟩

/-- Whatever the partition, `generate_offsets` with `total_blocks >= 1`
returns an array of `total_blocks` entries whose first entry is 0. -/
theorem generate_offsets_total (total_blocks : Int) (bytes_per_block : Nat)
    (blocks_with_excess_byte : Int) (h1 : 1 ≤ total_blocks) :
    ∃ offset_index,
      generate_offsets total_blocks bytes_per_block blocks_with_excess_byte
        = some offset_index ∧
      (offset_index.length : Int) = total_blocks ∧ offset_index[0]? = some 0 := by
  unfold generate_offsets
  rw [generate_offsets_loop]
  simp only [Nat.cast_zero, show (0 : Int) < total_blocks by omega, if_true]
  obtain ⟨res, hres, hl, hbefore⟩ := generate_offsets_loop_total total_blocks
    bytes_per_block blocks_with_excess_byte total_blocks.toNat (0 + 1)
    (if (0 : Int) < blocks_with_excess_byte then (0 + (bytes_per_block + 1)) % ULONG_MOD
     else (0 + bytes_per_block) % ULONG_MOD)
    ((List.replicate total_blocks.toNat 0).set 0 0) (by omega)
  refine ⟨res, hres, ?_, ?_⟩
  · rw [hl]; simp; omega
  · rw [hbefore 0 (by omega), List.getElem?_set_self (by simp; omega)]

/-- C10: for every current offset `x` (an `unsigned long`) and every
`offset_jump` `j` with `1 <= j` (an `int`), on the offset index
`generate_offsets` builds for `total_blocks >= 1`, `calculate_offset` with
`UP_LINE` returns `x - (j - 1)` when `x >= j - 1` and 0 otherwise. -/
theorem C10_up_line_clamped (file_offset : Nat) (width total_blocks : Int)
    (bytes_per_block : Nat) (blocks_with_excess_byte : Int) (largest_file_size : Nat)
    (h1 : 1 ≤ total_blocks) (hx : file_offset < ULONG_MOD)
    (hj : 1 ≤ offset_jump_of width largest_file_size)
    (hint : offset_jump_of width largest_file_size < 2 ^ 31) :
    ∃ offset_index,
      generate_offsets total_blocks bytes_per_block blocks_with_excess_byte
        = some offset_index ∧
      calculate_offset file_offset offset_index width total_blocks UP_LINE
          largest_file_size
        = some (if (offset_jump_of width largest_file_size - 1).toNat ≤ file_offset
            then file_offset - (offset_jump_of width largest_file_size - 1).toNat
            else 0) := by
  obtain ⟨oi, hgen, hlen, hzero⟩ :=
    generate_offsets_total total_blocks bytes_per_block blocks_with_excess_byte h1
  refine ⟨oi, hgen, ?_⟩
  rw [calculate_offset_up_line file_offset oi width total_blocks largest_file_size h1
    hlen hzero hx hj hint]
  congr 1
  split <;> omega

/-- Witness for C10: a 100-byte file on a terminal of width 20
(`offset_jump = 2`), 80 blocks, at offsets 10 and 0. -/
theorem C10_up_line_clamped_witness :
    offset_jump_of 20 100 = 2 ∧
    (∃ offset_index,
      generate_offsets 80 1 20 = some offset_index ∧
      calculate_offset 10 offset_index 20 80 UP_LINE 100 = some 9) ∧
    (∃ offset_index,
      generate_offsets 80 1 20 = some offset_index ∧
      calculate_offset 0 offset_index 20 80 UP_LINE 100 = some 0) := by
  have hj : offset_jump_of 20 100 = 2 := by decide
  obtain ⟨oi, hgen, h⟩ := C10_up_line_clamped 10 20 80 1 20 100 (by decide) (by decide)
    (by decide) (by decide)
  obtain ⟨oi0, hgen0, h0⟩ := C10_up_line_clamped 0 20 80 1 20 100 (by decide) (by decide)
    (by decide) (by decide)
  rw [hj] at h h0
  exact ⟨hj, ⟨oi, hgen, h⟩, ⟨oi0, hgen0, h0⟩⟩

/-- Every shift `calculate_offset` is called with keeps the offset below a
bound `B` that the entries of the offset index respect and that is at least
the file size, provided the terminal has a non-negative grid width and
`offset_jump` is in `[1, 2 ^ 31)`. -/
theorem calculate_offset_bounded (offset_index : List Nat)
    (width total_blocks : Int) (largest_file_size B : Nat) (h1 : 1 ≤ total_blocks)
    (hlen : (offset_index.length : Int) = total_blocks)
    (hgw : 0 ≤ width - 2 * SIDE_MARGIN)
    (hzero : offset_index[0]? = some 0)
    (hentries : ∀ (k v : Nat), offset_index[k]? = some v → v < B)
    (hB : largest_file_size ≤ B) (hB63 : B ≤ 2 ^ 63)
    (hj : 1 ≤ offset_jump_of width largest_file_size)
    (hint : offset_jump_of width largest_file_size < 2 ^ 31)
    (file_offset : Nat) (hx : file_offset < B) (shift_type : Int)
    (hshift : shift_type = LEFT_BLOCK ∨ shift_type = RIGHT_BLOCK ∨ shift_type = UP_ROW
      ∨ shift_type = DOWN_ROW ∨ shift_type = UP_LINE ∨ shift_type = DOWN_LINE) :
    ∃ v, calculate_offset file_offset offset_index width total_blocks shift_type
        largest_file_size = some v ∧ v < B := by
  obtain ⟨cur, hcur, h0, hlt⟩ :=
    calculate_current_block_in_range total_blocks file_offset offset_index h1 hlen
  obtain ⟨hL, hR, hU, hD⟩ := calculate_offset_block_moves file_offset offset_index
    width total_blocks largest_file_size cur hcur h0 hlt
  have hread : ∀ index : Int, 0 ≤ index → index < total_blocks →
      ∃ v, read_index offset_index index = some v ∧ v < B := by
    intro index hi0 hilt
    obtain ⟨value, hv, hget⟩ := read_index_in_range offset_index total_blocks index hlen
      hi0 hilt
    exact ⟨value, hv, hentries _ _ hget⟩
  have hxM : file_offset < ULONG_MOD := by
    rw [ULONG_MOD_eq]
    have : (2 : Nat) ^ 63 = 9223372036854775808 := by norm_num
    omega
  rcases hshift with h | h | h | h | h | h <;> subst h
  · rw [hL]; exact hread _ (by omega) (by omega)
  · rw [hR]; exact hread _ (by omega) (by omega)
  · rw [hU]; exact hread _ (by omega) (by omega)
  · rw [hD]; exact hread _ (by omega) (by omega)
  · rw [calculate_offset_up_line file_offset offset_index width total_blocks
      largest_file_size h1 hlen hzero hxM hj hint]
    exact ⟨_, rfl, by omega⟩
  · rw [(calculate_offset_line_moves file_offset offset_index width total_blocks
      largest_file_size cur hcur).2, to_unsigned_long_of_nonneg _ (by omega) hint]
    have h63 : (2 : Nat) ^ 63 = 9223372036854775808 := by norm_num
    rw [ULONG_MOD_eq]
    generalize offset_jump_of width largest_file_size = j at hj hint ⊢
    obtain ⟨n, rfl⟩ : ∃ n : Nat, j = (n : Int) := ⟨j.toNat, by omega⟩
    simp only [Int.toNat_ofNat]
    have hn1 : 1 ≤ n := by omega
    have hn2 : n < 2147483648 := by omega
    split
    · exact ⟨_, rfl, hx⟩
    · exact ⟨_, rfl, by omega⟩

/-- A mouse click keeps the offset below a bound that the entries of the
offset index respect, and always returns. -/
theorem mouse_clicked_bounded (offset_index : List Nat)
    (width height total_blocks : Int) (B : Nat)
    (hlen : (offset_index.length : Int) = total_blocks)
    (hentries : ∀ (k v : Nat), offset_index[k]? = some v → v < B)
    (s : Session) (hs : s.file_offset < B) (mouse_x mouse_y : Int) (action : Nat) :
    ∃ s1, mouse_clicked s offset_index width height total_blocks mouse_x mouse_y action
        = some s1 ∧ s1.file_offset < B := by
  unfold mouse_clicked
  split
  · split
    · exact ⟨s, rfl, hs⟩
    · by_cases hidx : (width - SIDE_MARGIN * 2) * (mouse_y - 2) + mouse_x - SIDE_MARGIN
          < total_blocks ∧
          (width - SIDE_MARGIN * 2) * (mouse_y - 2) + mouse_x - SIDE_MARGIN ≥ 0
      · obtain ⟨value, hv, hget⟩ := read_index_in_range offset_index total_blocks _ hlen
          hidx.2 hidx.1
        simp only [hidx, and_self, if_true, hv, Option.map_some']
        split
        · exact ⟨_, rfl, hentries _ _ hget⟩
        · exact ⟨_, rfl, hentries _ _ hget⟩
      · simp only [hidx, if_false, Option.map_some']
        split
        · exact ⟨_, rfl, hs⟩
        · exact ⟨_, rfl, hs⟩
  · exact ⟨s, rfl, hs⟩

/-- One key of the key loop keeps the offset below the bound. -/
theorem start_gui_switch_bounded (offset_index : List Nat)
    (width height total_blocks : Int) (largest_file_size B : Nat)
    (h1 : 1 ≤ total_blocks) (hlen : (offset_index.length : Int) = total_blocks)
    (hgw : 0 ≤ width - 2 * SIDE_MARGIN)
    (hzero : offset_index[0]? = some 0)
    (hentries : ∀ (k v : Nat), offset_index[k]? = some v → v < B)
    (hB : largest_file_size ≤ B) (hB63 : B ≤ 2 ^ 63)
    (hj : 1 ≤ offset_jump_of width largest_file_size)
    (hint : offset_jump_of width largest_file_size < 2 ^ 31)
    (s : Session) (hs : s.file_offset < B) (key : Key) :
    ∃ s1, start_gui_switch width height total_blocks offset_index largest_file_size
        s key = some s1 ∧ s1.file_offset < B := by
  have hmove : ∀ shift_type : Int,
      (shift_type = LEFT_BLOCK ∨ shift_type = RIGHT_BLOCK ∨ shift_type = UP_ROW
        ∨ shift_type = DOWN_ROW ∨ shift_type = UP_LINE ∨ shift_type = DOWN_LINE) →
      ∃ s1, (calculate_offset s.file_offset offset_index width total_blocks shift_type
          largest_file_size).map (fun offset => { s with file_offset := offset })
          = some s1 ∧ s1.file_offset < B := by
    intro shift_type hshift
    obtain ⟨v, hv, hvB⟩ := calculate_offset_bounded offset_index width total_blocks
      largest_file_size B h1 hlen hgw hzero hentries hB hB63 hj hint s.file_offset hs
      shift_type hshift
    rw [hv]
    exact ⟨_, rfl, hvB⟩
  cases key with
  | KEY_LEFT =>
    simp only [start_gui_switch]
    split
    · exact hmove _ (by simp)
    · exact ⟨s, rfl, hs⟩
  | KEY_RIGHT =>
    simp only [start_gui_switch]
    split
    · exact hmove _ (by simp)
    · exact ⟨s, rfl, hs⟩
  | KEY_UP =>
    simp only [start_gui_switch]
    split
    · exact hmove _ (by simp)
    · split
      · exact hmove _ (by simp)
      · exact ⟨s, rfl, hs⟩
  | KEY_DOWN =>
    simp only [start_gui_switch]
    split
    · exact hmove _ (by simp)
    · split
      · exact hmove _ (by simp)
      · exact ⟨s, rfl, hs⟩
  | KEY_NPAGE =>
    simp only [start_gui_switch]
    exact hmove _ (by simp)
  | KEY_PPAGE =>
    simp only [start_gui_switch]
    exact hmove _ (by simp)
  | char_m =>
    simp only [start_gui_switch]
    split
    · exact ⟨_, rfl, hs⟩
    · exact ⟨_, rfl, hs⟩
  | char_v =>
    simp only [start_gui_switch]
    split
    · exact ⟨_, rfl, hs⟩
    · exact ⟨_, rfl, hs⟩
  | KEY_MOUSE getmouse_ok x y bstate =>
    simp only [start_gui_switch]
    split
    · have hfirst : ∃ s1, (if bstate &&& BUTTON1_CLICKED ≠ 0 then
            mouse_clicked s offset_index width height total_blocks x y BUTTON1_CLICKED
          else some s) = some s1 ∧ s1.file_offset < B := by
        split
        · exact mouse_clicked_bounded offset_index width height total_blocks B hlen
            hentries s hs x y BUTTON1_CLICKED
        · exact ⟨s, rfl, hs⟩
      obtain ⟨s1, hs1, hs1B⟩ := hfirst
      simp only [hs1]
      split
      · exact mouse_clicked_bounded offset_index width height total_blocks B hlen
          hentries s1 hs1B x y BUTTON1_DOUBLE_CLICKED
      · exact ⟨s1, rfl, hs1B⟩
    · exact ⟨s, rfl, hs⟩
  | unhandled =>
    simp only [start_gui_switch]
    exact ⟨s, rfl, hs⟩

/-- The key loop keeps the offset below the bound, whatever the keys. -/
theorem start_gui_loop_bounded (offset_index : List Nat)
    (width height total_blocks : Int) (largest_file_size B : Nat)
    (h1 : 1 ≤ total_blocks) (hlen : (offset_index.length : Int) = total_blocks)
    (hgw : 0 ≤ width - 2 * SIDE_MARGIN)
    (hzero : offset_index[0]? = some 0)
    (hentries : ∀ (k v : Nat), offset_index[k]? = some v → v < B)
    (hB : largest_file_size ≤ B) (hB63 : B ≤ 2 ^ 63)
    (hj : 1 ≤ offset_jump_of width largest_file_size)
    (hint : offset_jump_of width largest_file_size < 2 ^ 31) :
    ∀ (keys : List Key) (s : Session), s.file_offset < B →
      ∃ s1, start_gui_loop width height total_blocks offset_index largest_file_size
          s keys = some s1 ∧ s1.file_offset < B := by
  intro keys
  induction keys with
  | nil => intro s hs; exact ⟨s, rfl, hs⟩
  | cons key keys ih =>
    intro s hs
    obtain ⟨s1, hs1, hs1B⟩ := start_gui_switch_bounded offset_index width height
      total_blocks largest_file_size B h1 hlen hgw hzero hentries hB hB63 hj hint s hs key
    rw [start_gui_loop, hs1]
    exact ih s1 hs1B

/-- On an accepted terminal `calculate_dimensions` returns the geometry with
`total_blocks = (width - 2 * SIDE_MARGIN) * (height - VERTICAL_BLACK_SPACE)`,
which is at least 30. -/
theorem calculate_dimensions_accepted (width height : Int) (largest_file_size : Nat)
    (hw : 10 ≤ width) (hh : 16 ≤ height) :
    calculate_dimensions width height largest_file_size
      = some { width := width
               height := height
               total_blocks := (width - 2 * SIDE_MARGIN) * (height - VERTICAL_BLACK_SPACE)
               bytes_per_block := bytes_per_block_of largest_file_size
                 ((width - 2 * SIDE_MARGIN) * (height - VERTICAL_BLACK_SPACE))
               blocks_with_excess_byte := blocks_with_excess_byte_of largest_file_size
                 ((width - 2 * SIDE_MARGIN) * (height - VERTICAL_BLACK_SPACE)) } ∧
    30 ≤ (width - 2 * SIDE_MARGIN) * (height - VERTICAL_BLACK_SPACE) := by
  constructor
  · unfold calculate_dimensions
    rw [if_neg (by omega)]
    simp only [Int.mul_comm SIDE_MARGIN 2]
  · simp only [SIDE_MARGIN, VERTICAL_BLACK_SPACE]
    have h6 : (6 : Int) ≤ width - 2 * 2 := by omega
    have h5 : (5 : Int) ≤ height - 11 := by omega
    nlinarith

/-- The entries of the offset index of the partition of a file size stay
below the file size when the file has at least `total_blocks` bytes, and never
exceed it otherwise. -/
theorem offset_index_entries_bounded (total_blocks : Int) (largest_file_size : Nat)
    (h1 : 1 ≤ total_blocks) (hsize : largest_file_size < ULONG_MOD)
    (offset_index : List Nat)
    (hgen : generate_offsets total_blocks
      (bytes_per_block_of largest_file_size total_blocks)
      (blocks_with_excess_byte_of largest_file_size total_blocks) = some offset_index) :
    (offset_index.length : Int) = total_blocks ∧ offset_index[0]? = some 0 ∧
    ∀ (k v : Nat), offset_index[k]? = some v →
      v < (if total_blocks ≤ (largest_file_size : Int) then largest_file_size
        else largest_file_size + 1) := by
  obtain ⟨h0, hrlt, hsum⟩ := partition_of_size total_blocks largest_file_size h1
  have hM : total_blocks * (bytes_per_block_of largest_file_size total_blocks : Int)
      + blocks_with_excess_byte_of largest_file_size total_blocks
      < (ULONG_MOD : Int) := by
    rw [hsum]; exact_mod_cast hsize
  obtain ⟨oi, hgen', hlen, hk⟩ := generate_offsets_spec total_blocks _ _ h1 h0 hM
  rw [hgen] at hgen'
  simp only [Option.some.injEq] at hgen'
  subst hgen'
  refine ⟨by omega, by simpa using hk 0 (by omega), ?_⟩
  intro k v hkv
  have hklt : k < offset_index.length := by
    by_contra hge
    rw [List.getElem?_eq_none (by omega)] at hkv
    cases hkv
  have hkt : (k : Int) < total_blocks := by omega
  rw [hk k hkt] at hkv
  simp only [Option.some.injEq] at hkv
  obtain ⟨hcover, _⟩ := block_end_le_max total_blocks _ _ largest_file_size h1 h0 hM
    hsum k hkt
  have hsk := bytes_in_block_eq total_blocks
    (bytes_per_block_of largest_file_size total_blocks)
    (blocks_with_excess_byte_of largest_file_size total_blocks) h1 hM k
  split
  · rename_i hge
    have hbpb : bytes_per_block_of largest_file_size total_blocks ≠ 0 := by
      intro hz
      rw [hz] at hsum
      simp only [Nat.cast_zero, mul_zero, zero_add] at hsum
      omega
    rw [hsk] at hcover
    omega
  · omega

/-- C9 (as stated, refuted): on accepted terminals the offset can reach or
pass the file size.  On a 20 x 16 terminal (80 blocks, `offset_jump = 3`)
with a 1-byte file, one `KEY_RIGHT` moves the offset to 1, the file size; on a
10 x 16 terminal (30 blocks, `offset_jump = 0`) with a 100-byte file, one
`KEY_NPAGE` moves the offset to `2 ^ 64 - 1`, and with a 2-byte file two
`KEY_PPAGE` move the offset to 2, the file size. -/
theorem C9_session_offset_counterexample :
    (calculate_dimensions 20 16 1).map (fun d => d.total_blocks) = some 80 ∧
    offset_jump_of 20 1 = 3 ∧
    (start_gui 20 16 1 [Key.KEY_RIGHT]).map (fun s => s.file_offset) = some 1 ∧
    ¬ (1 < 1) ∧
    (calculate_dimensions 10 16 100).map (fun d => d.total_blocks) = some 30 ∧
    offset_jump_of 10 100 = 0 ∧
    (start_gui 10 16 100 [Key.KEY_NPAGE]).map (fun s => s.file_offset)
      = some 18446744073709551615 ∧
    ¬ (18446744073709551615 < 100) ∧
    (start_gui 10 16 2 [Key.KEY_PPAGE, Key.KEY_PPAGE]).map (fun s => s.file_offset)
      = some 2 := by
  decide

/-- C9 (amended): for every accepted terminal size whose `offset_jump` is at
least 1 (and an `int`) and every `largest_file_size` in `[1, 2 ^ 63)`,
starting from offset 0, after any finite sequence of navigation keys (arrow
keys, page up/down, mode/format toggles, single and double clicks, keys
without effect) the session exists and `file_offset <= largest_file_size`;
when the file has at least `total_blocks` bytes, `file_offset <
largest_file_size`. -/
theorem C9_session_offset_bounded (width height : Int) (largest_file_size : Nat)
    (keys : List Key) (hw : 10 ≤ width) (hh : 16 ≤ height)
    (hl1 : 1 ≤ largest_file_size) (hl63 : largest_file_size < 2 ^ 63)
    (hj : 1 ≤ offset_jump_of width largest_file_size)
    (hint : offset_jump_of width largest_file_size < 2 ^ 31) :
    ∃ s, start_gui width height largest_file_size keys = some s ∧
      s.file_offset ≤ largest_file_size ∧
      ((width - 2 * SIDE_MARGIN) * (height - VERTICAL_BLACK_SPACE)
          ≤ (largest_file_size : Int) →
        s.file_offset < largest_file_size) := by
  obtain ⟨hdim, h30⟩ := calculate_dimensions_accepted width height largest_file_size hw hh
  have h63 : (2 : Nat) ^ 63 = 9223372036854775808 := by norm_num
  have hsize : largest_file_size < ULONG_MOD := by
    rw [ULONG_MOD_eq]; omega
  obtain ⟨oi, hgen, _, _⟩ := generate_offsets_total
    ((width - 2 * SIDE_MARGIN) * (height - VERTICAL_BLACK_SPACE))
    (bytes_per_block_of largest_file_size
      ((width - 2 * SIDE_MARGIN) * (height - VERTICAL_BLACK_SPACE)))
    (blocks_with_excess_byte_of largest_file_size
      ((width - 2 * SIDE_MARGIN) * (height - VERTICAL_BLACK_SPACE))) (by omega)
  obtain ⟨hlen, hzero, hentries⟩ := offset_index_entries_bounded _ largest_file_size
    (by omega) hsize oi hgen
  obtain ⟨s, hs, hsB⟩ := start_gui_loop_bounded oi width height
    ((width - 2 * SIDE_MARGIN) * (height - VERTICAL_BLACK_SPACE)) largest_file_size
    (if (width - 2 * SIDE_MARGIN) * (height - VERTICAL_BLACK_SPACE)
        ≤ (largest_file_size : Int) then largest_file_size else largest_file_size + 1)
    (by omega) hlen (by simp only [SIDE_MARGIN]; omega) hzero hentries
    (by split <;> omega) (by split <;> omega) hj hint keys
    { file_offset := 0, mode := OVERVIEW_MODE, display := HEX_VIEW }
    (by simp only []; split <;> omega)
  refine ⟨s, ?_, ?_, ?_⟩
  · unfold start_gui
    rw [hdim]
    simp only [hgen]
    exact hs
  · split at hsB <;> omega
  · intro hge
    rw [if_pos hge] at hsB
    exact hsB

/-- Witness for C9 (amended): a 100-byte file on a 20 x 16 terminal
(80 blocks, `offset_jump = 2`), three keys. -/
theorem C9_session_offset_bounded_witness :
    ∃ s, start_gui 20 16 100 [Key.KEY_RIGHT, Key.KEY_NPAGE, Key.KEY_DOWN] = some s ∧
      s.file_offset ≤ 100 ∧
      ((20 - 2 * SIDE_MARGIN) * (16 - VERTICAL_BLACK_SPACE) ≤ ((100 : Nat) : Int) →
        s.file_offset < 100) :=
  C9_session_offset_bounded 20 16 100 [Key.KEY_RIGHT, Key.KEY_NPAGE, Key.KEY_DOWN]
    (by decide) (by decide) (by decide) (by decide) (by decide) (by decide)

/-- `DOWN_LINE` with an `offset_jump` in `[1, 2 ^ 31)` at an offset below
`2 ^ 63`: the offset plus `offset_jump - 1` when the offset plus `offset_jump`
is below the file size, the offset itself otherwise. -/
theorem calculate_offset_down_line (file_offset : Nat) (offset_index : List Nat)
    (width total_blocks : Int) (largest_file_size : Nat) (h1 : 1 ≤ total_blocks)
    (hlen : (offset_index.length : Int) = total_blocks)
    (hx : file_offset < 2 ^ 63)
    (hj : 1 ≤ offset_jump_of width largest_file_size)
    (hint : offset_jump_of width largest_file_size < 2 ^ 31) :
    calculate_offset file_offset offset_index width total_blocks DOWN_LINE
        largest_file_size
      = some (if file_offset + (offset_jump_of width largest_file_size).toNat
            < largest_file_size
          then file_offset + ((offset_jump_of width largest_file_size).toNat - 1)
          else file_offset) := by
  obtain ⟨cur, hcur, _, _⟩ :=
    calculate_current_block_in_range total_blocks file_offset offset_index h1 hlen
  rw [(calculate_offset_line_moves file_offset offset_index width total_blocks
    largest_file_size cur hcur).2, to_unsigned_long_of_nonneg _ (by omega) hint]
  have h63 : (2 : Nat) ^ 63 = 9223372036854775808 := by norm_num
  rw [ULONG_MOD_eq]
  generalize offset_jump_of width largest_file_size = j at hj hint ⊢
  obtain ⟨n, rfl⟩ : ∃ n : Nat, j = (n : Int) := ⟨j.toNat, by omega⟩
  simp only [Int.toNat_ofNat]
  have hn1 : 1 ≤ n := by omega
  have hn2 : n < 2147483648 := by omega
  by_cases hlt : file_offset + n < largest_file_size
  · rw [if_neg (by omega), if_pos hlt]
    exact congrArg some (by omega)
  · rw [if_pos (by omega), if_neg hlt]

set_option maxRecDepth 100000 in
/-- C11 (as stated, refuted): on a terminal of width 20 (`offset_jump = 2`)
with a 100-byte file, `DOWN_LINE` at offset 98 returns 98 although
`98 + (2 - 1) = 99` is below the file size.  With a file size of `2 ^ 64 - 1`
on a terminal of width 32 (`offset_jump = 2`), `DOWN_LINE` at offset
`2 ^ 64 - 2` wraps around and returns `2 ^ 64 - 1`. -/
theorem C11_down_line_counterexample :
    offset_jump_of 20 100 = 2 ∧ 98 + (2 - 1) < 100 ∧
    (generate_offsets 80 1 20).bind
        (fun offset_index => calculate_offset 98 offset_index 20 80 DOWN_LINE 100)
      = some 98 ∧
    offset_jump_of 32 18446744073709551615 = 2 ∧
    (generate_offsets 140 (bytes_per_block_of 18446744073709551615 140)
        (blocks_with_excess_byte_of 18446744073709551615 140)).bind
        (fun offset_index => calculate_offset 18446744073709551614 offset_index 32 140
          DOWN_LINE 18446744073709551615)
      = some 18446744073709551615 := by
  refine ⟨by decide, by decide, by decide, by decide, ?_⟩
  decide

/-- C11 (amended): for every file size below `2 ^ 63`, every current offset
`x < largest_file_size` and every `offset_jump` `j` with `1 <= j` (an `int`),
`calculate_offset` with `DOWN_LINE` returns `x + (j - 1)` whenever
`x + j < largest_file_size`, and returns `x` unchanged whenever
`x + j >= largest_file_size`. -/
theorem C11_down_line (file_offset : Nat) (offset_index : List Nat)
    (width total_blocks : Int) (largest_file_size : Nat) (h1 : 1 ≤ total_blocks)
    (hlen : (offset_index.length : Int) = total_blocks)
    (hx : file_offset < largest_file_size) (hl63 : largest_file_size < 2 ^ 63)
    (hj : 1 ≤ offset_jump_of width largest_file_size)
    (hint : offset_jump_of width largest_file_size < 2 ^ 31) :
    ((file_offset : Int) + offset_jump_of width largest_file_size
        < (largest_file_size : Int) →
      calculate_offset file_offset offset_index width total_blocks DOWN_LINE
          largest_file_size
        = some (file_offset + ((offset_jump_of width largest_file_size).toNat - 1))) ∧
    ((file_offset : Int) + offset_jump_of width largest_file_size
        ≥ (largest_file_size : Int) →
      calculate_offset file_offset offset_index width total_blocks DOWN_LINE
          largest_file_size = some file_offset) := by
  have hdown := calculate_offset_down_line file_offset offset_index width total_blocks
    largest_file_size h1 hlen (by omega) hj hint
  constructor
  · intro hlt
    rw [hdown, if_pos (by omega)]
  · intro hge
    rw [hdown, if_neg (by omega)]

/-- Witness for C11 (amended): a 100-byte file on a terminal of width 20
(`offset_jump = 2`), at offsets 97 (moves to 98) and 98 (stays). -/
theorem C11_down_line_witness :
    calculate_offset 97 [0, 50] 20 2 DOWN_LINE 100 = some 98 ∧
    calculate_offset 98 [0, 50] 20 2 DOWN_LINE 100 = some 98 := by
  have hj : offset_jump_of 20 100 = 2 := by decide
  have h97 := (C11_down_line 97 [0, 50] 20 2 100 (by decide) (by decide) (by decide)
    (by decide) (by decide) (by decide)).1
  have h98 := (C11_down_line 98 [0, 50] 20 2 100 (by decide) (by decide) (by decide)
    (by decide) (by decide) (by decide)).2
  rw [hj] at h97 h98
  exact ⟨h97 (by decide), h98 (by decide)⟩

/-- A click outside the overview grid of a terminal with a non-negative grid
width, in any mode and with any action, returns and leaves `file_offset`
unchanged: the coordinate test rejects it, or the computed index is not below
`total_blocks`. -/
theorem mouse_clicked_outside_grid (s : Session) (offset_index : List Nat)
    (width height mouse_x mouse_y : Int) (action : Nat)
    (hgw : 0 ≤ width - 2 * SIDE_MARGIN)
    (hout : mouse_x < SIDE_MARGIN ∨ mouse_x > width - SIDE_MARGIN - 1 ∨ mouse_y < 2
      ∨ mouse_y > height - VERTICAL_BLACK_SPACE + 1) :
    ∃ s1, mouse_clicked s offset_index width height
        ((width - 2 * SIDE_MARGIN) * (height - VERTICAL_BLACK_SPACE))
        mouse_x mouse_y action = some s1 ∧
      s1.file_offset = s.file_offset ∧ s1.display = s.display := by
  unfold mouse_clicked
  simp only [SIDE_MARGIN, VERTICAL_BLACK_SPACE] at hgw hout ⊢
  split
  · split
    · exact ⟨s, rfl, rfl, rfl⟩
    · rename_i hguard
      have hrow : height - 11 ≤ mouse_y - 2 := by omega
      have hmul : (width - 2 * 2) * (height - 11) ≤ (width - 2 * 2) * (mouse_y - 2) :=
        Int.mul_le_mul_of_nonneg_left hrow hgw
      have hidx : ¬ ((width - 2 * 2) * (mouse_y - 2) + mouse_x - 2
          < (width - 2 * 2) * (height - 11) ∧
          (width - 2 * 2) * (mouse_y - 2) + mouse_x - 2 ≥ 0) := by
        omega
      simp only [hidx, if_false, Option.map_some']
      split
      · exact ⟨_, rfl, rfl, rfl⟩
      · exact ⟨_, rfl, rfl, rfl⟩
  · exact ⟨s, rfl, rfl, rfl⟩

/-- C12: for every accepted terminal size (`width >= 10`, `height >= 16`,
`total_blocks = (width - 4) * (height - 11)`), in overview mode, a single or
double click at a screen coordinate outside the overview grid (column outside
`[SIDE_MARGIN, width - SIDE_MARGIN - 1]` or row outside
`[2, height - VERTICAL_BLACK_SPACE + 1]`) leaves `file_offset` unchanged, both
in `mouse_clicked` and in the `KEY_MOUSE` case of the key loop, whatever the
button state.  The proof uses neither the height bound nor the mode, so the
statement is made for every height and every mode. -/
theorem C12_click_outside_grid (s : Session) (offset_index : List Nat)
    (width height mouse_x mouse_y : Int) (largest_file_size : Nat)
    (hw : 10 ≤ width)
    (hout : mouse_x < SIDE_MARGIN ∨ mouse_x > width - SIDE_MARGIN - 1 ∨ mouse_y < 2
      ∨ mouse_y > height - VERTICAL_BLACK_SPACE + 1) :
    (∃ s1, mouse_clicked s offset_index width height
        ((width - 2 * SIDE_MARGIN) * (height - VERTICAL_BLACK_SPACE))
        mouse_x mouse_y BUTTON1_CLICKED = some s1 ∧
      s1.file_offset = s.file_offset) ∧
    (∃ s1, mouse_clicked s offset_index width height
        ((width - 2 * SIDE_MARGIN) * (height - VERTICAL_BLACK_SPACE))
        mouse_x mouse_y BUTTON1_DOUBLE_CLICKED = some s1 ∧
      s1.file_offset = s.file_offset) ∧
    (∀ (getmouse_ok : Bool) (bstate : Nat),
      ∃ s1, start_gui_switch width height
          ((width - 2 * SIDE_MARGIN) * (height - VERTICAL_BLACK_SPACE))
          offset_index largest_file_size s
          (Key.KEY_MOUSE getmouse_ok mouse_x mouse_y bstate) = some s1 ∧
        s1.file_offset = s.file_offset) := by
  have hgw : 0 ≤ width - 2 * SIDE_MARGIN := by simp only [SIDE_MARGIN]; omega
  have hclick : ∀ (t : Session) (action : Nat),
      ∃ s1, mouse_clicked t offset_index width height
          ((width - 2 * SIDE_MARGIN) * (height - VERTICAL_BLACK_SPACE))
          mouse_x mouse_y action = some s1 ∧ s1.file_offset = t.file_offset := by
    intro t action
    obtain ⟨s1, h, ho, _⟩ := mouse_clicked_outside_grid t offset_index width height
      mouse_x mouse_y action hgw hout
    exact ⟨s1, h, ho⟩
  refine ⟨hclick s _, hclick s _, ?_⟩
  intro getmouse_ok bstate
  simp only [start_gui_switch]
  split
  · have hfirst : ∃ s1, (if bstate &&& BUTTON1_CLICKED ≠ 0 then
          mouse_clicked s offset_index width height
            ((width - 2 * SIDE_MARGIN) * (height - VERTICAL_BLACK_SPACE))
            mouse_x mouse_y BUTTON1_CLICKED
        else some s) = some s1 ∧ s1.file_offset = s.file_offset := by
      split
      · exact hclick s _
      · exact ⟨s, rfl, rfl⟩
    obtain ⟨s1, hs1, ho1⟩ := hfirst
    simp only [hs1]
    split
    · obtain ⟨s2, hs2, ho2⟩ := hclick s1 BUTTON1_DOUBLE_CLICKED
      exact ⟨s2, hs2, by rw [ho2, ho1]⟩
    · exact ⟨s1, rfl, ho1⟩
  · exact ⟨s, rfl, rfl⟩

/-- Witness for C12: clicks at row 7 (below the grid, which ends at row 6)
of a 10 x 16 terminal. -/
theorem C12_click_outside_grid_witness :
    (∃ s1, mouse_clicked { file_offset := 8, mode := OVERVIEW_MODE, display := HEX_VIEW }
        [0, 4, 8] 10 16 ((10 - 2 * SIDE_MARGIN) * (16 - VERTICAL_BLACK_SPACE))
        3 7 BUTTON1_CLICKED = some s1 ∧ s1.file_offset = 8) ∧
    (∃ s1, mouse_clicked { file_offset := 8, mode := OVERVIEW_MODE, display := HEX_VIEW }
        [0, 4, 8] 10 16 ((10 - 2 * SIDE_MARGIN) * (16 - VERTICAL_BLACK_SPACE))
        3 7 BUTTON1_DOUBLE_CLICKED = some s1 ∧ s1.file_offset = 8) ∧
    (∀ (getmouse_ok : Bool) (bstate : Nat),
      ∃ s1, start_gui_switch 10 16 ((10 - 2 * SIDE_MARGIN) * (16 - VERTICAL_BLACK_SPACE))
          [0, 4, 8] 100 { file_offset := 8, mode := OVERVIEW_MODE, display := HEX_VIEW }
          (Key.KEY_MOUSE getmouse_ok 3 7 bstate) = some s1 ∧
        s1.file_offset = 8) :=
  C12_click_outside_grid { file_offset := 8, mode := OVERVIEW_MODE, display := HEX_VIEW }
    [0, 4, 8] 10 16 3 7 100 (by decide) (by decide)

/-- C13: for every accepted terminal size and every offset index of
`total_blocks` entries, in overview mode, a click at column `x` and row `y`
inside the overview grid (`SIDE_MARGIN <= x <= width - SIDE_MARGIN - 1`,
`2 <= y <= height - 10`) computes
`index = grid_width * (y - 2) + (x - SIDE_MARGIN)`, which satisfies
`0 <= index < total_blocks`, and sets `file_offset` to `offset_index[index]`;
a single click leaves the mode unchanged, a double click sets it to
`HEX_MODE`.  The row bounds make the height at least 12; the bound
`height >= 16` is not needed. -/
theorem C13_click_inside_grid (s : Session) (offset_index : List Nat)
    (width height mouse_x mouse_y : Int) (hw : 10 ≤ width)
    (hlen : (offset_index.length : Int)
      = (width - 2 * SIDE_MARGIN) * (height - VERTICAL_BLACK_SPACE))
    (hmode : s.mode = OVERVIEW_MODE)
    (hx0 : SIDE_MARGIN ≤ mouse_x) (hx1 : mouse_x ≤ width - SIDE_MARGIN - 1)
    (hy0 : 2 ≤ mouse_y) (hy1 : mouse_y ≤ height - 10) :
    0 ≤ (width - 2 * SIDE_MARGIN) * (mouse_y - 2) + (mouse_x - SIDE_MARGIN) ∧
    (width - 2 * SIDE_MARGIN) * (mouse_y - 2) + (mouse_x - SIDE_MARGIN)
      < (width - 2 * SIDE_MARGIN) * (height - VERTICAL_BLACK_SPACE) ∧
    ∃ entry,
      read_index offset_index
        ((width - 2 * SIDE_MARGIN) * (mouse_y - 2) + (mouse_x - SIDE_MARGIN))
        = some entry ∧
      mouse_clicked s offset_index width height
          ((width - 2 * SIDE_MARGIN) * (height - VERTICAL_BLACK_SPACE))
          mouse_x mouse_y BUTTON1_CLICKED
        = some { file_offset := entry, mode := s.mode, display := s.display } ∧
      mouse_clicked s offset_index width height
          ((width - 2 * SIDE_MARGIN) * (height - VERTICAL_BLACK_SPACE))
          mouse_x mouse_y BUTTON1_DOUBLE_CLICKED
        = some { file_offset := entry, mode := HEX_MODE, display := s.display } := by
  simp only [SIDE_MARGIN, VERTICAL_BLACK_SPACE] at hlen hx0 hx1 hy0 hy1 ⊢
  have hgw : (0 : Int) ≤ width - 2 * 2 := by omega
  have hnn : 0 ≤ (width - 2 * 2) * (mouse_y - 2) := Int.mul_nonneg hgw (by omega)
  have hmul : (width - 2 * 2) * (mouse_y - 2) ≤ (width - 2 * 2) * (height - 11 - 1) :=
    Int.mul_le_mul_of_nonneg_left (by omega) hgw
  have hexp : (width - 2 * 2) * (height - 11 - 1)
      = (width - 2 * 2) * (height - 11) - (width - 2 * 2) := by ring
  have h0 : 0 ≤ (width - 2 * 2) * (mouse_y - 2) + (mouse_x - 2) := by omega
  have hlt : (width - 2 * 2) * (mouse_y - 2) + (mouse_x - 2)
      < (width - 2 * 2) * (height - 11) := by omega
  refine ⟨h0, hlt, ?_⟩
  obtain ⟨entry, hread, _⟩ := read_index_in_range offset_index _ _ hlen h0 hlt
  refine ⟨entry, hread, ?_, ?_⟩
  · unfold mouse_clicked
    simp only [SIDE_MARGIN]
    have hsame : (width - 2 * 2) * (mouse_y - 2) + mouse_x - 2
        = (width - 2 * 2) * (mouse_y - 2) + (mouse_x - 2) := by omega
    rw [if_pos ⟨hmode, Or.inl trivial⟩, if_neg (by omega), hsame,
      if_pos ⟨hlt, by omega⟩, hread]
    simp only [Option.map_some', show BUTTON1_CLICKED ≠ BUTTON1_DOUBLE_CLICKED by decide,
      if_false]
  · unfold mouse_clicked
    simp only [SIDE_MARGIN]
    have hsame : (width - 2 * 2) * (mouse_y - 2) + mouse_x - 2
        = (width - 2 * 2) * (mouse_y - 2) + (mouse_x - 2) := by omega
    rw [if_pos ⟨hmode, Or.inr trivial⟩, if_neg (by omega), hsame,
      if_pos ⟨hlt, by omega⟩, hread]
    simp only [Option.map_some', if_true]

/-- Witness for C13: a click at column 3, row 4 of a 10 x 16 terminal on the
index of a 30-byte file selects block 13. -/
theorem C13_click_inside_grid_witness :
    read_index (List.range 30) ((10 - 2 * SIDE_MARGIN) * (4 - 2) + (3 - SIDE_MARGIN))
      = some 13 ∧
    mouse_clicked { file_offset := 0, mode := OVERVIEW_MODE, display := HEX_VIEW }
        (List.range 30) 10 16 ((10 - 2 * SIDE_MARGIN) * (16 - VERTICAL_BLACK_SPACE))
        3 4 BUTTON1_CLICKED
      = some { file_offset := 13, mode := OVERVIEW_MODE, display := HEX_VIEW } ∧
    mouse_clicked { file_offset := 0, mode := OVERVIEW_MODE, display := HEX_VIEW }
        (List.range 30) 10 16 ((10 - 2 * SIDE_MARGIN) * (16 - VERTICAL_BLACK_SPACE))
        3 4 BUTTON1_DOUBLE_CLICKED
      = some { file_offset := 13, mode := HEX_MODE, display := HEX_VIEW } := by
  obtain ⟨_, _, entry, hread, hsingle, hdouble⟩ := C13_click_inside_grid
    { file_offset := 0, mode := OVERVIEW_MODE, display := HEX_VIEW } (List.range 30)
    10 16 3 4 (by decide) (by decide) rfl (by decide) (by decide) (by decide) (by decide)
  have h13 : read_index (List.range 30)
      ((10 - 2 * SIDE_MARGIN) * (4 - 2) + (3 - SIDE_MARGIN)) = some 13 := by decide
  rw [h13] at hread
  simp only [Option.some.injEq] at hread
  subst hread
  exact ⟨h13, hsingle, hdouble⟩

/-- A double click that is rejected (outside the overview grid, or with a
computed index outside `[0, total_blocks)`) on a terminal at least 10 columns
wide leaves `file_offset` unchanged, in any mode; the whole session is
unchanged when the coordinate fails the test `mouse_clicked` itself makes
(which compares the row with `height - 8`). -/
theorem mouse_clicked_double_click_rejected (s : Session) (offset_index : List Nat)
    (width height mouse_x mouse_y : Int) (hw : 10 ≤ width)
    (hrejected :
      (mouse_x < SIDE_MARGIN ∨ mouse_x > width - SIDE_MARGIN - 1 ∨ mouse_y < 2
        ∨ mouse_y > height - VERTICAL_BLACK_SPACE + 1) ∨
      ¬ (0 ≤ (width - SIDE_MARGIN * 2) * (mouse_y - 2) + mouse_x - SIDE_MARGIN ∧
          (width - SIDE_MARGIN * 2) * (mouse_y - 2) + mouse_x - SIDE_MARGIN
            < (width - 2 * SIDE_MARGIN) * (height - VERTICAL_BLACK_SPACE))) :
    ∃ s1, mouse_clicked s offset_index width height
        ((width - 2 * SIDE_MARGIN) * (height - VERTICAL_BLACK_SPACE))
        mouse_x mouse_y BUTTON1_DOUBLE_CLICKED = some s1 ∧
      s1.file_offset = s.file_offset ∧
      ((mouse_x < SIDE_MARGIN ∨ mouse_x > width - SIDE_MARGIN - 1 ∨ mouse_y < 2
          ∨ mouse_y > height - 8) → s1 = s) := by
  have hgw : 0 ≤ width - 2 * SIDE_MARGIN := by simp only [SIDE_MARGIN]; omega
  have hoffset : ∃ s1, mouse_clicked s offset_index width height
      ((width - 2 * SIDE_MARGIN) * (height - VERTICAL_BLACK_SPACE))
      mouse_x mouse_y BUTTON1_DOUBLE_CLICKED = some s1 ∧
      s1.file_offset = s.file_offset := by
    rcases hrejected with hout | hidx
    · obtain ⟨s1, h, ho, _⟩ := mouse_clicked_outside_grid s offset_index width height
        mouse_x mouse_y BUTTON1_DOUBLE_CLICKED hgw hout
      exact ⟨s1, h, ho⟩
    · unfold mouse_clicked
      split
      · split
        · exact ⟨s, rfl, rfl⟩
        · have hidx2 : ¬ ((width - SIDE_MARGIN * 2) * (mouse_y - 2) + mouse_x
              - SIDE_MARGIN
              < (width - 2 * SIDE_MARGIN) * (height - VERTICAL_BLACK_SPACE) ∧
              (width - SIDE_MARGIN * 2) * (mouse_y - 2) + mouse_x - SIDE_MARGIN ≥ 0) :=
            fun h => hidx ⟨h.2, h.1⟩
          simp only [hidx2, if_false, Option.map_some']
          split
          · exact ⟨_, rfl, rfl⟩
          · exact ⟨_, rfl, rfl⟩
      · exact ⟨s, rfl, rfl⟩
  obtain ⟨s1, hs1, ho⟩ := hoffset
  refine ⟨s1, hs1, ho, ?_⟩
  intro hguard
  unfold mouse_clicked at hs1
  rw [if_pos hguard] at hs1
  split at hs1 <;> exact (Option.some.inj hs1).symm

/-- C19 (defect of the code): on every accepted terminal (`10 <= width`,
`16 <= height`) in overview mode, a double click in a column of the grid and
in row `height - 9` or `height - 8` is outside the overview grid, whose last
row is `height - 10`, and its computed index is not below `total_blocks`; the
click is rejected as far as the offset goes (`file_offset` is unchanged), yet
the mode becomes `HEX_MODE`.  The out-of-bounds test of `mouse_clicked`
compares the row with `height - 8`, two rows past the grid, and the
assignment to the mode is not under the index check that guards the
assignment to `file_offset`. -/
theorem C19_double_click_below_grid (s : Session) (offset_index : List Nat)
    (width height mouse_x mouse_y : Int) (hw : 10 ≤ width) (hh : 16 ≤ height)
    (hmode : s.mode = OVERVIEW_MODE)
    (hx1 : SIDE_MARGIN ≤ mouse_x) (hx2 : mouse_x ≤ width - SIDE_MARGIN - 1)
    (hy : mouse_y = height - 9 ∨ mouse_y = height - 8) :
    mouse_y > height - VERTICAL_BLACK_SPACE + 1 ∧
    ¬ ((width - SIDE_MARGIN * 2) * (mouse_y - 2) + mouse_x - SIDE_MARGIN
        < (width - 2 * SIDE_MARGIN) * (height - VERTICAL_BLACK_SPACE)) ∧
    mouse_clicked s offset_index width height
        ((width - 2 * SIDE_MARGIN) * (height - VERTICAL_BLACK_SPACE))
        mouse_x mouse_y BUTTON1_DOUBLE_CLICKED
      = some { file_offset := s.file_offset, mode := HEX_MODE, display := s.display } ∧
    HEX_MODE ≠ s.mode := by
  have hrow : height - 11 ≤ mouse_y - 2 := by omega
  have hmul : (width - 4) * (height - 11) ≤ (width - 4) * (mouse_y - 2) :=
    Int.mul_le_mul_of_nonneg_left hrow (by omega)
  have hidx : ¬ ((width - SIDE_MARGIN * 2) * (mouse_y - 2) + mouse_x - SIDE_MARGIN
      < (width - 2 * SIDE_MARGIN) * (height - VERTICAL_BLACK_SPACE)) := by
    simp only [SIDE_MARGIN, VERTICAL_BLACK_SPACE] at hx1 ⊢
    norm_num
    omega
  refine ⟨by simp only [VERTICAL_BLACK_SPACE]; omega, hidx, ?_, by rw [hmode]; decide⟩
  have hguard : ¬ (mouse_x < SIDE_MARGIN ∨ mouse_x > width - SIDE_MARGIN - 1
      ∨ mouse_y < 2 ∨ mouse_y > height - 8) := by
    simp only [SIDE_MARGIN] at hx1 hx2 ⊢
    omega
  have hidx2 : ¬ ((width - SIDE_MARGIN * 2) * (mouse_y - 2) + mouse_x - SIDE_MARGIN
      < (width - 2 * SIDE_MARGIN) * (height - VERTICAL_BLACK_SPACE) ∧
      (width - SIDE_MARGIN * 2) * (mouse_y - 2) + mouse_x - SIDE_MARGIN ≥ 0) :=
    fun h => hidx h.1
  unfold mouse_clicked
  rw [if_pos ⟨hmode, Or.inr rfl⟩, if_neg hguard]
  simp only [hidx2, if_false, Option.map_some', if_true]

/-- Failing input of C19: on a 10 x 16 terminal (30 blocks, grid rows 2..6) in
overview mode at offset 8, a double click at column 2, row 7 computes index 30,
which is outside `[0, 30)`: the offset stays at 8, but the mode becomes
`HEX_MODE`. -/
theorem C19_double_click_below_grid_witness :
    (7 : Int) > 16 - VERTICAL_BLACK_SPACE + 1 ∧
    ¬ ((10 - SIDE_MARGIN * 2) * ((7 : Int) - 2) + 2 - SIDE_MARGIN
        < (10 - 2 * SIDE_MARGIN) * (16 - VERTICAL_BLACK_SPACE)) ∧
    mouse_clicked { file_offset := 8, mode := OVERVIEW_MODE, display := HEX_VIEW }
        (List.range 30) 10 16 ((10 - 2 * SIDE_MARGIN) * (16 - VERTICAL_BLACK_SPACE))
        2 7 BUTTON1_DOUBLE_CLICKED
      = some { file_offset := 8, mode := HEX_MODE, display := HEX_VIEW } ∧
    HEX_MODE ≠ OVERVIEW_MODE :=
  C19_double_click_below_grid
    { file_offset := 8, mode := OVERVIEW_MODE, display := HEX_VIEW } (List.range 30)
    10 16 2 7 (by decide) (by decide) rfl (by decide) (by decide) (Or.inl (by decide))

/-- C14 (as stated, refuted): on the offset index of a 100-byte file cut into
30 blocks (10 x 16 terminal) the last block starts at 97; at offset 98 the
current block is the last one, 29, and `RIGHT_BLOCK` returns 97, not 98. -/
theorem C14_right_block_counterexample :
    (generate_offsets 30 (bytes_per_block_of 100 30)
        (blocks_with_excess_byte_of 100 30)).bind
        (fun offset_index => calculate_current_block 30 98 offset_index)
      = some (30 - 1) ∧
    (generate_offsets 30 (bytes_per_block_of 100 30)
        (blocks_with_excess_byte_of 100 30)).bind
        (fun offset_index => calculate_offset 98 offset_index 10 30 RIGHT_BLOCK 100)
      = some 97 ∧
    (97 : Nat) ≠ 98 := by
  decide

/-- C14 (amended): for every offset index of `total_blocks >= 1` entries and
every current offset whose block (`calculate_current_block`) is
`total_blocks - 1`, `calculate_offset` with `RIGHT_BLOCK` returns
`offset_index[total_blocks - 1]`, the start of the last block; the offset is
unchanged when it is that start. -/
theorem C14_right_block_at_last_block (file_offset : Nat) (offset_index : List Nat)
    (width total_blocks : Int) (largest_file_size : Nat) (h1 : 1 ≤ total_blocks)
    (hlen : (offset_index.length : Int) = total_blocks)
    (hcur : calculate_current_block total_blocks file_offset offset_index
      = some (total_blocks - 1)) :
    ∃ entry, offset_index[(total_blocks - 1).toNat]? = some entry ∧
      calculate_offset file_offset offset_index width total_blocks RIGHT_BLOCK
        largest_file_size = some entry ∧
      (file_offset = entry →
        calculate_offset file_offset offset_index width total_blocks RIGHT_BLOCK
          largest_file_size = some file_offset) := by
  obtain ⟨_, hR, _, _⟩ := calculate_offset_block_moves file_offset offset_index
    width total_blocks largest_file_size (total_blocks - 1) hcur (by omega) (by omega)
  obtain ⟨entry, hread, hget⟩ := read_index_in_range offset_index total_blocks
    (total_blocks - 1) hlen (by omega) (by omega)
  have hmin : min (total_blocks - 1) (total_blocks - 1 + 1) = total_blocks - 1 := by
    omega
  rw [hmin, hread] at hR
  exact ⟨entry, hget, hR, fun h => by rw [hR, h]⟩

/-- Witness for C14 (amended): offsets 9 and 8 in the last block of the
index `[0, 4, 8]`. -/
theorem C14_right_block_at_last_block_witness :
    calculate_offset 9 [0, 4, 8] 10 3 RIGHT_BLOCK 12 = some 8 ∧
    calculate_offset 8 [0, 4, 8] 10 3 RIGHT_BLOCK 12 = some 8 := by
  obtain ⟨entry, hget, h9, _⟩ := C14_right_block_at_last_block 9 [0, 4, 8] 10 3 12
    (by decide) (by decide) (by decide)
  obtain ⟨entry8, hget8, _, h8⟩ := C14_right_block_at_last_block 8 [0, 4, 8] 10 3 12
    (by decide) (by decide) (by decide)
  have he : entry = 8 := by
    have : ([0, 4, 8] : List Nat)[((3 : Int) - 1).toNat]? = some 8 := by decide
    rw [this] at hget
    exact (Option.some.inj hget).symm
  have he8 : entry8 = 8 := by
    have : ([0, 4, 8] : List Nat)[((3 : Int) - 1).toNat]? = some 8 := by decide
    rw [this] at hget8
    exact (Option.some.inj hget8).symm
  subst he
  subst he8
  exact ⟨h9, h8 rfl⟩

/-- C15 (the code at the failing input): a 10 x 16 terminal is accepted and
has `offset_jump = 0` for every file below 16 bytes.  With a 1-byte file
`DOWN_LINE` at offset 0, the last byte, returns `2 ^ 64 - 1`; with a 10-byte
file `DOWN_LINE` at offset 9, the last byte, returns 8. -/
theorem C15_down_line_at_last_byte_narrow_terminal :
    (calculate_dimensions 10 16 1).map (fun d => d.total_blocks) = some 30 ∧
    offset_jump_of 10 1 = 0 ∧
    (generate_offsets 30 (bytes_per_block_of 1 30)
        (blocks_with_excess_byte_of 1 30)).bind
        (fun offset_index => calculate_offset (1 - 1) offset_index 10 30 DOWN_LINE 1)
      = some 18446744073709551615 ∧
    offset_jump_of 10 10 = 0 ∧
    (generate_offsets 30 (bytes_per_block_of 10 30)
        (blocks_with_excess_byte_of 10 30)).bind
        (fun offset_index => calculate_offset (10 - 1) offset_index 10 30 DOWN_LINE 10)
      = some 8 := by
  decide

/-- C16 (the code at the failing input): for a 1-byte file on a 10 x 16
terminal `calculate_dimensions` computes 30 blocks, `bytes_per_block = 0` and
`blocks_with_excess_byte = 1`. -/
theorem C16_bytes_per_block_zero :
    calculate_dimensions 10 16 1
      = some { width := 10
               height := 16
               total_blocks := 30
               bytes_per_block := 0
               blocks_with_excess_byte := 1 } ∧
    bytes_per_block_of 1 30 = 0 ∧ ¬ (1 ≤ bytes_per_block_of 1 30) := by
  decide

/-- A read leaves the bytes of the file as they are. -/
theorem fread_content (size : Nat) (fp : FILE) :
    (fread size fp).2.2.content = fp.content := by
  unfold fread
  split <;> rfl

/-- The main loop of `generate_blocks` leaves the bytes of both files as they
are. -/
theorem generate_blocks_loop_content (total_blocks : Int) (bytes_per_block : Nat)
    (blocks_with_excess_byte : Int) :
    ∀ (fuel i : Nat) (file_one file_two : FILE) (cache : List Nat) (scan : BlockScan),
      generate_blocks_loop total_blocks bytes_per_block blocks_with_excess_byte
        fuel i file_one file_two cache = some scan →
      scan.file_one.content = file_one.content ∧
      scan.file_two.content = file_two.content := by
  intro fuel
  induction fuel with
  | zero =>
    intro i file_one file_two cache scan h
    rw [generate_blocks_loop] at h
    cases h
  | succ fuel ih =>
    intro i file_one file_two cache scan h
    rw [generate_blocks_loop] at h
    have e1 := fread_content
      (bytes_in_block bytes_per_block blocks_with_excess_byte i) file_one
    have e2 := fread_content
      (bytes_in_block bytes_per_block blocks_with_excess_byte i) file_two
    by_cases hlt : (i : Int) < total_blocks
    · simp only [hlt, if_true] at h
      split at h
      · simp only [Option.some.injEq] at h
        subst h
        exact ⟨e1, e2⟩
      · split at h
        · obtain ⟨h1, h2⟩ := ih _ _ _ _ _ h
          exact ⟨h1.trans e1, h2.trans e2⟩
        · split at h
          · obtain ⟨h1, h2⟩ := ih _ _ _ _ _ h
            exact ⟨h1.trans e1, h2.trans e2⟩
          · obtain ⟨h1, h2⟩ := ih _ _ _ _ _ h
            exact ⟨h1.trans e1, h2.trans e2⟩
    · simp only [hlt, if_false, Option.some.injEq] at h
      subst h
      exact ⟨rfl, rfl⟩

/-- The result of `generate_blocks` depends on the bytes of the two files
only, not on where their cursors are. -/
theorem generate_blocks_congr (file_one file_two other_one other_two : FILE)
    (total_blocks : Int) (bytes_per_block : Nat) (blocks_with_excess_byte : Int)
    (h1 : file_one.content = other_one.content)
    (h2 : file_two.content = other_two.content) :
    generate_blocks file_one file_two total_blocks bytes_per_block
        blocks_with_excess_byte
      = generate_blocks other_one other_two total_blocks bytes_per_block
        blocks_with_excess_byte := by
  unfold generate_blocks fseek_set_zero
  rw [h1, h2]

/-- Whatever the files and the partition, `generate_blocks` returns, and the
streams it leaves hold the bytes of the files it was given. -/
theorem generate_blocks_total (file_one file_two : FILE) (total_blocks : Int)
    (bytes_per_block : Nat) (blocks_with_excess_byte : Int) :
    ∃ scan, generate_blocks file_one file_two total_blocks bytes_per_block
        blocks_with_excess_byte = some scan ∧
      scan.file_one.content = file_one.content ∧
      scan.file_two.content = file_two.content := by
  obtain ⟨scan, hscan, _, _, _⟩ :=
    generate_blocks_loop_suffix total_blocks bytes_per_block blocks_with_excess_byte
      (total_blocks.toNat + 1) 0 (fseek_set_zero file_one) (fseek_set_zero file_two)
      (List.replicate total_blocks.toNat BLOCK_EMPTY) (by simp)
      (fun k _ hk => by
        rw [List.getElem?_replicate, if_pos (by simpa using hk)])
      (by omega)
  obtain ⟨c1, c2⟩ := generate_blocks_loop_content total_blocks bytes_per_block
    blocks_with_excess_byte _ _ _ _ _ _ hscan
  exact ⟨scan, hscan, c1, c2⟩

/-- C17: `generate_blocks` does not depend on the file cursors: for every
pair of file contents, every partition and all initial positions of the two
cursors the result is the same; and for every pair of files the scan
returns, and a second scan started from the streams the first scan leaves
returns the same cache. -/
theorem C17_generate_blocks_cursor_independent (content_one content_two : List Byte)
    (total_blocks : Int) (bytes_per_block : Nat) (blocks_with_excess_byte : Int) :
    (∀ p1 p2 q1 q2 : Nat,
      generate_blocks { content := content_one, position := p1 }
          { content := content_two, position := p2 } total_blocks bytes_per_block
          blocks_with_excess_byte
        = generate_blocks { content := content_one, position := q1 }
          { content := content_two, position := q2 } total_blocks bytes_per_block
          blocks_with_excess_byte) ∧
    (∀ p1 p2 : Nat, ∃ first second,
      generate_blocks { content := content_one, position := p1 }
          { content := content_two, position := p2 } total_blocks bytes_per_block
          blocks_with_excess_byte = some first ∧
      generate_blocks first.file_one first.file_two total_blocks bytes_per_block
          blocks_with_excess_byte = some second ∧
      second.block_cache = first.block_cache) := by
  constructor
  · intro p1 p2 q1 q2
    exact generate_blocks_congr _ _ _ _ total_blocks bytes_per_block
      blocks_with_excess_byte rfl rfl
  · intro p1 p2
    obtain ⟨first, hfirst, c1, c2⟩ := generate_blocks_total
      { content := content_one, position := p1 }
      { content := content_two, position := p2 } total_blocks bytes_per_block
      blocks_with_excess_byte
    refine ⟨first, first, hfirst, ?_, rfl⟩
    rw [generate_blocks_congr first.file_one first.file_two
      { content := content_one, position := p1 }
      { content := content_two, position := p2 } total_blocks bytes_per_block
      blocks_with_excess_byte c1 c2]
    exact hfirst

/-- C18: `calculate_dimensions` aborts when `height < 16` or `width < 10`;
for every terminal size it accepts it returns
`total_blocks = (width - 2 * SIDE_MARGIN) * (height - VERTICAL_BLACK_SPACE)`,
which is strictly positive, so the divisor of the division and of the modulo
that compute `bytes_per_block` and `blocks_with_excess_byte` is not zero. -/
theorem C18_calculate_dimensions_guard (width height : Int) (largest_file_size : Nat) :
    ((height < 16 ∨ width < 10) →
      calculate_dimensions width height largest_file_size = none) ∧
    (∀ d, calculate_dimensions width height largest_file_size = some d →
      16 ≤ height ∧ 10 ≤ width ∧
      d.total_blocks = (width - 2 * SIDE_MARGIN) * (height - VERTICAL_BLACK_SPACE) ∧
      0 < d.total_blocks ∧ d.total_blocks.toNat ≠ 0 ∧
      d.bytes_per_block = largest_file_size / d.total_blocks.toNat ∧
      d.blocks_with_excess_byte
        = ((largest_file_size % d.total_blocks.toNat : Nat) : Int)) := by
  constructor
  · intro hsmall
    unfold calculate_dimensions
    rw [if_pos hsmall]
  · intro d hd
    by_cases hsmall : height < 16 ∨ width < 10
    · unfold calculate_dimensions at hd
      rw [if_pos hsmall] at hd
      cases hd
    · obtain ⟨hdim, h30⟩ := calculate_dimensions_accepted width height
        largest_file_size (by omega) (by omega)
      rw [hdim] at hd
      simp only [Option.some.injEq] at hd
      subst hd
      refine ⟨by omega, by omega, rfl, by simp only; omega, by simp only; omega,
        rfl, rfl⟩

/-- Witness for C18: a 9 x 16 terminal is refused, a 10 x 16 terminal gives
30 blocks. -/
theorem C18_calculate_dimensions_guard_witness :
    calculate_dimensions 9 16 100 = none ∧
    ∃ d, calculate_dimensions 10 16 100 = some d ∧ d.total_blocks = 30 ∧
      0 < d.total_blocks := by
  refine ⟨(C18_calculate_dimensions_guard 9 16 100).1 (by decide), ?_⟩
  have hd : calculate_dimensions 10 16 100
      = some { width := 10, height := 16, total_blocks := 30, bytes_per_block := 3,
               blocks_with_excess_byte := 10 } := by decide
  obtain ⟨_, _, htb, hpos, _⟩ := (C18_calculate_dimensions_guard 10 16 100).2 _ hd
  exact ⟨_, hd, rfl, hpos⟩

/-- C20: for every offset index built by `generate_offsets` from the partition
of a file size (an `unsigned long`) into `total_blocks >= 1` blocks, two
consecutive entries that are equal are equal to the file size; when the file
has at least `total_blocks` bytes, every entry is strictly below the next
one. -/
theorem C20_equal_entries_at_end_of_file (total_blocks : Int) (largest_file_size : Nat)
    (h1 : 1 ≤ total_blocks) (hsize : largest_file_size < ULONG_MOD) :
    ∃ offset_index,
      generate_offsets total_blocks
        (bytes_per_block_of largest_file_size total_blocks)
        (blocks_with_excess_byte_of largest_file_size total_blocks)
        = some offset_index ∧
      (∀ (i entry : Nat), (i : Int) + 1 < total_blocks →
        offset_index[i]? = some entry → offset_index[i + 1]? = some entry →
        entry = largest_file_size) ∧
      (total_blocks ≤ (largest_file_size : Int) →
        ∀ (i entry next : Nat), (i : Int) + 1 < total_blocks →
          offset_index[i]? = some entry → offset_index[i + 1]? = some next →
          entry < next) := by
  obtain ⟨h0, hrlt, hsum⟩ := partition_of_size total_blocks largest_file_size h1
  have hM : total_blocks * (bytes_per_block_of largest_file_size total_blocks : Int)
      + blocks_with_excess_byte_of largest_file_size total_blocks
      < (ULONG_MOD : Int) := by
    rw [hsum]; exact_mod_cast hsize
  obtain ⟨oi, hgen, hlen, hk⟩ := generate_offsets_spec total_blocks _ _ h1 h0 hM
  refine ⟨oi, hgen, ?_, ?_⟩
  · intro i entry hi he hn
    rw [hk i (by omega)] at he
    rw [hk (i + 1) (by push_cast; omega)] at hn
    simp only [Option.some.injEq] at he hn
    obtain ⟨_, hnext⟩ := block_end_le_max total_blocks _ _ largest_file_size h1 h0 hM
      hsum i (by omega)
    have hsi := bytes_in_block_eq total_blocks
      (bytes_per_block_of largest_file_size total_blocks)
      (blocks_with_excess_byte_of largest_file_size total_blocks) h1 hM i
    rw [hsi] at hnext
    have hb : bytes_per_block_of largest_file_size total_blocks = 0 := by
      split at hnext <;> omega
    rw [hb] at hsum he hnext
    simp only [Nat.cast_zero, mul_zero, zero_add, Nat.mul_zero, Nat.zero_add] at hsum he
    split at hnext <;> omega
  · intro hge i entry next hi he hn
    rw [hk i (by omega)] at he
    rw [hk (i + 1) (by push_cast; omega)] at hn
    simp only [Option.some.injEq] at he hn
    obtain ⟨_, hnext⟩ := block_end_le_max total_blocks _ _ largest_file_size h1 h0 hM
      hsum i (by omega)
    have hsi := bytes_in_block_eq total_blocks
      (bytes_per_block_of largest_file_size total_blocks)
      (blocks_with_excess_byte_of largest_file_size total_blocks) h1 hM i
    have hb : bytes_per_block_of largest_file_size total_blocks ≠ 0 := by
      intro hz
      rw [hz] at hsum
      simp only [Nat.cast_zero, mul_zero, zero_add] at hsum
      omega
    rw [hsi] at hnext
    omega

/-- Witness for C20: a 3-byte file cut into 5 blocks has the index
`[0, 1, 2, 3, 3]`, whose equal entries are the file size; a 100-byte file cut
into 30 blocks has a strictly increasing index. -/
theorem C20_equal_entries_at_end_of_file_witness :
    (generate_offsets 5 (bytes_per_block_of 3 5) (blocks_with_excess_byte_of 3 5)
      = some [0, 1, 2, 3, 3]) ∧
    (∃ offset_index,
      generate_offsets 30 (bytes_per_block_of 100 30)
        (blocks_with_excess_byte_of 100 30) = some offset_index ∧
      ∀ (i entry next : Nat), (i : Int) + 1 < 30 →
        offset_index[i]? = some entry → offset_index[i + 1]? = some next →
        entry < next) := by
  refine ⟨by decide, ?_⟩
  obtain ⟨oi, hgen, _, hstrict⟩ :=
    C20_equal_entries_at_end_of_file 30 100 (by decide) (by decide)
  exact ⟨oi, hgen, hstrict (by decide)⟩

/-- `DOWN_LINE` with an `offset_jump` in `[1, 2 ^ 31)` at an offset whose sum
with `offset_jump` stays below `2 ^ 64` (the sum of the guard does not wrap
around): the offset plus `offset_jump - 1` when the offset plus `offset_jump`
is below the file size, the offset itself otherwise. -/
theorem calculate_offset_down_line_no_wrap (file_offset : Nat)
    (offset_index : List Nat) (width total_blocks : Int) (largest_file_size : Nat)
    (h1 : 1 ≤ total_blocks) (hlen : (offset_index.length : Int) = total_blocks)
    (hj : 1 ≤ offset_jump_of width largest_file_size)
    (hint : offset_jump_of width largest_file_size < 2 ^ 31)
    (hsum : (file_offset : Int) + offset_jump_of width largest_file_size < 2 ^ 64) :
    calculate_offset file_offset offset_index width total_blocks DOWN_LINE
        largest_file_size
      = some (if file_offset + (offset_jump_of width largest_file_size).toNat
            < largest_file_size
          then file_offset + ((offset_jump_of width largest_file_size).toNat - 1)
          else file_offset) := by
  obtain ⟨cur, hcur, _, _⟩ :=
    calculate_current_block_in_range total_blocks file_offset offset_index h1 hlen
  rw [(calculate_offset_line_moves file_offset offset_index width total_blocks
    largest_file_size cur hcur).2, to_unsigned_long_of_nonneg _ (by omega) hint]
  rw [ULONG_MOD_eq]
  generalize offset_jump_of width largest_file_size = j at hj hint hsum ⊢
  obtain ⟨n, rfl⟩ : ∃ n : Nat, j = (n : Int) := ⟨j.toNat, by omega⟩
  simp only [Int.toNat_ofNat]
  have hn1 : 1 ≤ n := by omega
  have hn2 : file_offset + n < 18446744073709551616 := by omega
  by_cases hlt : file_offset + n < largest_file_size
  · rw [if_neg (by omega), if_pos hlt]
    exact congrArg some (by omega)
  · rw [if_pos (by omega), if_neg hlt]

/-- `DOWN_LINE` with an `offset_jump` in `[1, 2 ^ 31)` at an offset below the
file size whose sum with `offset_jump` reaches `2 ^ 64`: the wrapped sum is
below the file size, so the guard does not hold and the code returns
`file_offset + offset_jump - 1` modulo `2 ^ 64`. -/
theorem calculate_offset_down_line_wrap (file_offset : Nat)
    (offset_index : List Nat) (width total_blocks : Int) (largest_file_size : Nat)
    (h1 : 1 ≤ total_blocks) (hlen : (offset_index.length : Int) = total_blocks)
    (hx : file_offset < largest_file_size) (hlM : largest_file_size < 2 ^ 64)
    (hj : 1 ≤ offset_jump_of width largest_file_size)
    (hint : offset_jump_of width largest_file_size < 2 ^ 31)
    (hsum : (2 : Int) ^ 64 ≤ (file_offset : Int) + offset_jump_of width largest_file_size) :
    calculate_offset file_offset offset_index width total_blocks DOWN_LINE
        largest_file_size
      = some ((file_offset + (offset_jump_of width largest_file_size).toNat - 1)
          % 2 ^ 64) := by
  obtain ⟨cur, hcur, _, _⟩ :=
    calculate_current_block_in_range total_blocks file_offset offset_index h1 hlen
  rw [(calculate_offset_line_moves file_offset offset_index width total_blocks
    largest_file_size cur hcur).2, to_unsigned_long_of_nonneg _ (by omega) hint]
  rw [ULONG_MOD_eq]
  generalize offset_jump_of width largest_file_size = j at hj hint hsum ⊢
  obtain ⟨n, rfl⟩ : ∃ n : Nat, j = (n : Int) := ⟨j.toNat, by omega⟩
  simp only [Int.toNat_ofNat]
  have h64 : (2 : Nat) ^ 64 = 18446744073709551616 := by norm_num
  rw [h64] at hlM ⊢
  have hn1 : 1 ≤ n := by omega
  have hn2 : n < 2147483648 := by omega
  have hn3 : 18446744073709551616 ≤ file_offset + n := by omega
  rw [if_neg (by omega)]
  exact congrArg some (by omega)

set_option maxRecDepth 100000 in
/-- C21 (as stated, refuted): with a file size of `2 ^ 64 - 1` on a 36 x 16
terminal (160 blocks, `offset_jump = 3`) the sum `file_offset + offset_jump`
of the guard wraps around: `DOWN_LINE` at offset `2 ^ 64 - 3` returns
`2 ^ 64 - 1`, the file size itself, and `DOWN_LINE` at offset `2 ^ 64 - 2`
returns 0, a move backwards. -/
theorem C21_down_line_range_counterexample :
    offset_jump_of 36 18446744073709551615 = 3 ∧
    (18446744073709551613 : Nat) < 18446744073709551615 ∧
    (generate_offsets 160 (bytes_per_block_of 18446744073709551615 160)
        (blocks_with_excess_byte_of 18446744073709551615 160)).bind
        (fun offset_index => calculate_offset 18446744073709551613 offset_index 36 160
          DOWN_LINE 18446744073709551615)
      = some 18446744073709551615 ∧
    (18446744073709551614 : Nat) < 18446744073709551615 ∧
    (generate_offsets 160 (bytes_per_block_of 18446744073709551615 160)
        (blocks_with_excess_byte_of 18446744073709551615 160)).bind
        (fun offset_index => calculate_offset 18446744073709551614 offset_index 36 160
          DOWN_LINE 18446744073709551615)
      = some 0 := by
  refine ⟨by decide, by decide, ?_, by decide, ?_⟩
  · decide
  · decide

/-- C21 (amended): for every current offset `x < largest_file_size` (both
`unsigned long`) and every `offset_jump` `j` with `1 <= j` (an `int`),
`calculate_offset` with `DOWN_LINE` returns an offset `r`, and `r` satisfies
`x <= r < largest_file_size` exactly when `x + j < 2 ^ 64`, that is when the
sum `file_offset + offset_jump` of the guard does not wrap around. -/
theorem C21_down_line_range (file_offset : Nat) (offset_index : List Nat)
    (width total_blocks : Int) (largest_file_size : Nat) (h1 : 1 ≤ total_blocks)
    (hlen : (offset_index.length : Int) = total_blocks)
    (hx : file_offset < largest_file_size) (hlM : largest_file_size < 2 ^ 64)
    (hj : 1 ≤ offset_jump_of width largest_file_size)
    (hint : offset_jump_of width largest_file_size < 2 ^ 31) :
    ∃ r, calculate_offset file_offset offset_index width total_blocks DOWN_LINE
        largest_file_size = some r ∧
      ((file_offset ≤ r ∧ r < largest_file_size) ↔
        (file_offset : Int) + offset_jump_of width largest_file_size < 2 ^ 64) := by
  by_cases hsum : (file_offset : Int) + offset_jump_of width largest_file_size < 2 ^ 64
  · rw [calculate_offset_down_line_no_wrap file_offset offset_index width total_blocks
      largest_file_size h1 hlen hj hint hsum]
    refine ⟨_, rfl, ?_⟩
    simp only [hsum, iff_true]
    constructor
    · split <;> omega
    · split <;> omega
  · rw [calculate_offset_down_line_wrap file_offset offset_index width total_blocks
      largest_file_size h1 hlen hx hlM hj hint (by omega)]
    refine ⟨_, rfl, ?_⟩
    simp only [hsum, iff_false]
    have h64 : (2 : Nat) ^ 64 = 18446744073709551616 := by norm_num
    rw [h64] at hlM ⊢
    generalize offset_jump_of width largest_file_size = j at hj hint hsum ⊢
    obtain ⟨n, rfl⟩ : ∃ n : Nat, j = (n : Int) := ⟨j.toNat, by omega⟩
    simp only [Int.toNat_ofNat]
    omega

/-- Witness for C21 (amended): a 100-byte file on a terminal of width 20
(`offset_jump = 2`), at offset 50, where `50 + 2` does not wrap around. -/
theorem C21_down_line_range_witness :
    ∃ r, calculate_offset 50 [0, 50] 20 2 DOWN_LINE 100 = some r ∧ 50 ≤ r ∧ r < 100 := by
  obtain ⟨r, hr, hiff⟩ := C21_down_line_range 50 [0, 50] 20 2 100 (by decide)
    (by decide) (by decide) (by decide) (by decide) (by decide)
  exact ⟨r, hr, hiff.2 (by decide)⟩

/-- C27: for every `offset_jump` `j` with `1 <= j` (an `int`) and every current
offset `x` with `x + j < largest_file_size` (an `unsigned long`), on the offset
index `generate_offsets` builds for `total_blocks >= 1`, `DOWN_LINE` moves to
`x + (j - 1)` and `UP_LINE` from there returns exactly `x`. -/
theorem C27_scroll_round_trip (file_offset : Nat) (width total_blocks : Int)
    (bytes_per_block : Nat) (blocks_with_excess_byte : Int) (largest_file_size : Nat)
    (h1 : 1 ≤ total_blocks) (hlM : largest_file_size < 2 ^ 64)
    (hj : 1 ≤ offset_jump_of width largest_file_size)
    (hint : offset_jump_of width largest_file_size < 2 ^ 31)
    (hx : (file_offset : Int) + offset_jump_of width largest_file_size
      < (largest_file_size : Int)) :
    ∃ offset_index down,
      generate_offsets total_blocks bytes_per_block blocks_with_excess_byte
        = some offset_index ∧
      calculate_offset file_offset offset_index width total_blocks DOWN_LINE
        largest_file_size = some down ∧
      (down : Int) = file_offset + (offset_jump_of width largest_file_size - 1) ∧
      calculate_offset down offset_index width total_blocks UP_LINE
        largest_file_size = some file_offset := by
  obtain ⟨oi, hgen, hlen, hzero⟩ :=
    generate_offsets_total total_blocks bytes_per_block blocks_with_excess_byte h1
  have h64 : (2 : Nat) ^ 64 = 18446744073709551616 := by norm_num
  have hdown := calculate_offset_down_line_no_wrap file_offset oi width total_blocks
    largest_file_size h1 hlen hj hint (by omega)
  rw [if_pos (by omega)] at hdown
  refine ⟨oi, _, hgen, hdown, by omega, ?_⟩
  rw [calculate_offset_up_line _ oi width total_blocks largest_file_size h1 hlen hzero
    (by rw [ULONG_MOD_eq]; omega) hj hint]
  exact congrArg some (by omega)

/-- Witness for C27: a 100-byte file on a 20 x 16 terminal (80 blocks,
`offset_jump = 2`), from offset 50 down to 51 and back up to 50. -/
theorem C27_scroll_round_trip_witness :
    ∃ offset_index,
      generate_offsets 80 1 20 = some offset_index ∧
      calculate_offset 50 offset_index 20 80 DOWN_LINE 100 = some 51 ∧
      calculate_offset 51 offset_index 20 80 UP_LINE 100 = some 50 := by
  have hj : offset_jump_of 20 100 = 2 := by decide
  obtain ⟨oi, down, hgen, hdown, hval, hup⟩ :=
    C27_scroll_round_trip 50 20 80 1 20 100 (by decide) (by decide) (by decide)
      (by decide) (by decide)
  rw [hj] at hval
  have hd : down = 51 := by omega
  subst hd
  exact ⟨oi, hgen, hdown, hup⟩

/-- The number of characters `Nat.toDigitsCore 16` adds for `n`, given enough
fuel, is the number `d` of hexadecimal digits of `n`: `d >= 1`, `n < 16 ^ d`
and, unless `n` is 0, `16 ^ (d - 1) <= n`. -/
theorem toDigitsCore_hex_length :
    ∀ (fuel n : Nat) (ds : List Char), n < fuel →
      ∃ d : Nat, (Nat.toDigitsCore 16 fuel n ds).length = ds.length + d ∧
        1 ≤ d ∧ n < 16 ^ d ∧ (n ≠ 0 → 16 ^ (d - 1) ≤ n) := by
  intro fuel
  induction fuel with
  | zero => intro n _ h; omega
  | succ fuel ih =>
    intro n ds hn
    simp only [Nat.toDigitsCore]
    by_cases hq : n / 16 = 0
    · rw [if_pos hq]
      refine ⟨1, by simp, le_refl 1, ?_, ?_⟩
      · norm_num; omega
      · intro h0; norm_num; omega
    · rw [if_neg hq]
      obtain ⟨d, hlen, hd1, hlt, hge⟩ :=
        ih (n / 16) (Nat.digitChar (n % 16) :: ds) (by omega)
      have hpow : 16 ^ (d + 1) = 16 ^ d * 16 := pow_succ 16 d
      have hpow2 : 16 ^ d = 16 ^ (d - 1) * 16 := by
        rw [← pow_succ]
        congr 1
        omega
      have hlow := hge hq
      refine ⟨d + 1, ?_, by omega, by omega, ?_⟩
      · rw [hlen]
        simp only [List.length_cons]
        omega
      · intro _
        rw [Nat.add_sub_cancel]
        omega

/-- The value of `calculate_max_offset_characters` is the number of
hexadecimal digits of the size (1 for size 0). -/
theorem calculate_max_offset_characters_spec (fsz : Nat) :
    ∃ d : Nat, calculate_max_offset_characters fsz = (d : Int) ∧
      1 ≤ d ∧ fsz < 16 ^ d ∧ (fsz ≠ 0 → 16 ^ (d - 1) ≤ fsz) := by
  obtain ⟨d, hlen, hd1, hlt, hge⟩ := toDigitsCore_hex_length (fsz + 1) fsz [] (by omega)
  refine ⟨d, ?_, hd1, hlt, hge⟩
  unfold calculate_max_offset_characters Nat.toDigits
  rw [hlen]
  simp

/-- The expression `(hex_width - hex_width % 4) / 4` of C is `hex_width / 4`
rounded toward zero. -/
theorem tdiv_sub_tmod_four (hex_width : Int) :
    Int.tdiv (hex_width - Int.tmod hex_width 4) 4 = Int.tdiv hex_width 4 := by
  have h := Int.tmod_add_tdiv hex_width 4
  have he : hex_width - Int.tmod hex_width 4 = 4 * Int.tdiv hex_width 4 := by omega
  rw [he, Int.mul_tdiv_cancel_left _ (by decide)]

/-- C22 (as stated, refuted): on a terminal of width 10 with a 4096-byte
file (4 hexadecimal digits) `hex_width = 10 - 4 - 3 - 4 = -1` and
`offset_jump` is 0, while `floor(-1 / 4)` is -1. -/
theorem C22_offset_jump_counterexample :
    calculate_max_offset_characters 4096 = 4 ∧
    (10 : Int) - 4 - 3 - 2 * SIDE_MARGIN = -1 ∧
    offset_jump_of 10 4096 = 0 ∧
    Int.fdiv ((10 : Int) - 4 - 3 - 2 * SIDE_MARGIN) 4 = -1 ∧
    offset_jump_of 10 4096 ≠ Int.fdiv ((10 : Int) - 4 - 3 - 2 * SIDE_MARGIN) 4 := by
  decide

/-- C22 (amended): for every terminal width and every `largest_file_size`,
with `d` the number of hexadecimal digits needed to print `largest_file_size`
(1 for size 0) and `hex_width = width - d - 3 - 2 * SIDE_MARGIN`, the
`offset_jump` of `calculate_offset` is `hex_width / 4` rounded toward zero;
it is `floor(hex_width / 4)` whenever `hex_width >= 0`. -/
theorem C22_offset_jump (width : Int) (largest_file_size : Nat) :
    ∃ d : Nat, calculate_max_offset_characters largest_file_size = (d : Int) ∧
      1 ≤ d ∧ largest_file_size < 16 ^ d ∧
      (largest_file_size ≠ 0 → 16 ^ (d - 1) ≤ largest_file_size) ∧
      offset_jump_of width largest_file_size
        = Int.tdiv (width - (d : Int) - 3 - 2 * SIDE_MARGIN) 4 ∧
      (0 ≤ width - (d : Int) - 3 - 2 * SIDE_MARGIN →
        offset_jump_of width largest_file_size
          = Int.fdiv (width - (d : Int) - 3 - 2 * SIDE_MARGIN) 4) := by
  obtain ⟨d, hd, hd1, hlt, hge⟩ := calculate_max_offset_characters_spec largest_file_size
  have hjump : offset_jump_of width largest_file_size
      = Int.tdiv (width - (d : Int) - 3 - 2 * SIDE_MARGIN) 4 := by
    unfold offset_jump_of
    simp only [hd, Int.mul_comm SIDE_MARGIN 2]
    exact tdiv_sub_tmod_four _
  refine ⟨d, hd, hd1, hlt, hge, hjump, ?_⟩
  intro hnn
  rw [hjump, Int.fdiv_eq_tdiv hnn (by decide)]

/-- Witness for C22 (amended): a 100-byte file (2 digits) on a terminal of
width 20 has `hex_width = 11` and `offset_jump = 2 = floor(11 / 4)`. -/
theorem C22_offset_jump_witness :
    calculate_max_offset_characters 100 = 2 ∧
    offset_jump_of 20 100 = Int.fdiv (20 - 2 - 3 - 2 * SIDE_MARGIN) 4 ∧
    offset_jump_of 20 100 = 2 := by
  obtain ⟨d, hd, _, _, _, _, hfloor⟩ := C22_offset_jump 20 100
  have h2 : calculate_max_offset_characters 100 = 2 := by decide
  rw [h2] at hd
  have hd2 : d = 2 := by omega
  subst hd2
  exact ⟨h2, hfloor (by decide), by decide⟩

/-- C23: in the key loop of `start_gui`, on a session whose mode is
`OVERVIEW_MODE` or `HEX_MODE` and whose display is `HEX_VIEW` or `ASCII_VIEW`,
the key `v` maps overview to hex mode and hex to overview mode without
changing display or offset, the key `m` maps hex view to ASCII view and ASCII
to hex view without changing mode or offset, and pressing either key twice
gives back the original session. -/
theorem C23_toggles_are_involutions (width height total_blocks : Int)
    (offset_index : List Nat) (largest_file_size : Nat) (s : Session)
    (hmode : s.mode = OVERVIEW_MODE ∨ s.mode = HEX_MODE)
    (hdisplay : s.display = HEX_VIEW ∨ s.display = ASCII_VIEW) :
    (∃ s1, start_gui_switch width height total_blocks offset_index largest_file_size
        s Key.char_v = some s1 ∧
      s1.display = s.display ∧ s1.file_offset = s.file_offset ∧
      (s.mode = OVERVIEW_MODE → s1.mode = HEX_MODE) ∧
      (s.mode = HEX_MODE → s1.mode = OVERVIEW_MODE) ∧
      start_gui_switch width height total_blocks offset_index largest_file_size
        s1 Key.char_v = some s) ∧
    (∃ s1, start_gui_switch width height total_blocks offset_index largest_file_size
        s Key.char_m = some s1 ∧
      s1.mode = s.mode ∧ s1.file_offset = s.file_offset ∧
      (s.display = HEX_VIEW → s1.display = ASCII_VIEW) ∧
      (s.display = ASCII_VIEW → s1.display = HEX_VIEW) ∧
      start_gui_switch width height total_blocks offset_index largest_file_size
        s1 Key.char_m = some s) := by
  obtain ⟨file_offset, mode, display⟩ := s
  simp only at hmode hdisplay
  constructor
  · rcases hmode with h | h <;> subst h <;>
      simp [start_gui_switch, OVERVIEW_MODE, HEX_MODE]
  · rcases hdisplay with h | h <;> subst h <;>
      simp [start_gui_switch, HEX_VIEW, ASCII_VIEW]

/-- Witness for C23: the initial session of `start_gui`. -/
theorem C23_toggles_are_involutions_witness :
    start_gui_switch 10 16 30 (List.range 30) 30
        { file_offset := 0, mode := OVERVIEW_MODE, display := HEX_VIEW } Key.char_v
      = some { file_offset := 0, mode := HEX_MODE, display := HEX_VIEW } ∧
    start_gui_switch 10 16 30 (List.range 30) 30
        { file_offset := 0, mode := HEX_MODE, display := HEX_VIEW } Key.char_v
      = some { file_offset := 0, mode := OVERVIEW_MODE, display := HEX_VIEW } := by
  obtain ⟨⟨s1, h1, hd, ho, hm, _, hback⟩, _⟩ := C23_toggles_are_involutions 10 16 30
    (List.range 30) 30 { file_offset := 0, mode := OVERVIEW_MODE, display := HEX_VIEW }
    (Or.inl rfl) (Or.inl rfl)
  have hs1 : s1 = { file_offset := 0, mode := HEX_MODE, display := HEX_VIEW } := by
    obtain ⟨a, b, c⟩ := s1
    have hb := hm rfl
    simp only at hd ho hb
    rw [hd, ho, hb]
  subst hs1
  exact ⟨h1, hback⟩

/-- The loop of `calculate_current_block` on an array of `total_blocks`
entries does not depend on what follows the array in memory. -/
theorem calculate_current_block_loop_append (total_blocks : Int) (file_offset : Nat)
    (offset_index extra : List Nat)
    (hlen : (offset_index.length : Int) = total_blocks) :
    ∀ (fuel i : Nat) (current_block : Int),
      calculate_current_block_loop total_blocks file_offset (offset_index ++ extra)
          fuel i current_block
        = calculate_current_block_loop total_blocks file_offset offset_index
          fuel i current_block := by
  intro fuel
  induction fuel with
  | zero => intro i current_block; rfl
  | succ fuel ih =>
    intro i current_block
    rw [calculate_current_block_loop, calculate_current_block_loop]
    by_cases hi : (i : Int) < total_blocks
    · rw [if_pos hi, if_pos hi, List.getElem?_append_left (by omega)]
      by_cases hi1 : (i : Int) + 1 < total_blocks
      · simp only [hi1, if_true, List.getElem?_append_left
          (show i + 1 < offset_index.length by omega), ih]
      · simp only [hi1, if_false, ih]
    · rw [if_neg hi, if_neg hi]

/-- C24: for every `total_blocks >= 1`, every offset index of `total_blocks`
entries and every file offset, `calculate_current_block` reads inside the
array only (it returns, and returns the same whatever follows the array) and
its value is in `[0, total_blocks - 1]`; `calculate_offset` with `LEFT_BLOCK`
or `RIGHT_BLOCK`, and with `UP_ROW` or `DOWN_ROW` on a terminal whose grid
width is not negative, reads `offset_index` at an index in
`[0, total_blocks - 1]` and returns the entry there. -/
theorem C24_index_safety (file_offset : Nat) (offset_index : List Nat)
    (width total_blocks : Int) (largest_file_size : Nat) (h1 : 1 ≤ total_blocks)
    (hlen : (offset_index.length : Int) = total_blocks) :
    (∃ cur, calculate_current_block total_blocks file_offset offset_index = some cur ∧
      0 ≤ cur ∧ cur < total_blocks) ∧
    (∀ extra : List Nat,
      calculate_current_block total_blocks file_offset (offset_index ++ extra)
        = calculate_current_block total_blocks file_offset offset_index) ∧
    (∀ shift_type : Int,
      (shift_type = LEFT_BLOCK ∨ shift_type = RIGHT_BLOCK ∨
        ((shift_type = UP_ROW ∨ shift_type = DOWN_ROW) ∧
          0 ≤ width - 2 * SIDE_MARGIN)) →
      ∃ (index : Int) (entry : Nat), 0 ≤ index ∧ index < total_blocks ∧
        offset_index[index.toNat]? = some entry ∧
        calculate_offset file_offset offset_index width total_blocks shift_type
          largest_file_size = some entry) := by
  obtain ⟨cur, hcur, h0, hlt⟩ :=
    calculate_current_block_in_range total_blocks file_offset offset_index h1 hlen
  obtain ⟨hL, hR, hU, hD⟩ := calculate_offset_block_moves file_offset offset_index
    width total_blocks largest_file_size cur hcur h0 hlt
  have hread : ∀ index : Int, 0 ≤ index → index < total_blocks →
      ∃ (index' : Int) (entry : Nat), 0 ≤ index' ∧ index' < total_blocks ∧
        offset_index[index'.toNat]? = some entry ∧
        read_index offset_index index = some entry := by
    intro index hi0 hilt
    obtain ⟨entry, hv, hget⟩ := read_index_in_range offset_index total_blocks index hlen
      hi0 hilt
    exact ⟨index, entry, hi0, hilt, hget, hv⟩
  refine ⟨⟨cur, hcur, h0, hlt⟩, ?_, ?_⟩
  · intro extra
    unfold calculate_current_block
    exact calculate_current_block_loop_append total_blocks file_offset offset_index
      extra hlen _ _ _
  · intro shift_type hshift
    rcases hshift with h | h | ⟨h | h, hgw⟩ <;> subst h
    · rw [hL]; exact hread _ (by omega) (by omega)
    · rw [hR]; exact hread _ (by omega) (by omega)
    · rw [hU]; exact hread _ (by omega) (by omega)
    · rw [hD]; exact hread _ (by omega) (by omega)

/-- Witness for C24: offset 5 in the index `[0, 4, 8]` on a terminal of
width 10. -/
theorem C24_index_safety_witness :
    (∃ cur, calculate_current_block 3 5 [0, 4, 8] = some cur ∧ 0 ≤ cur ∧ cur < 3) ∧
    (∃ (index : Int) (entry : Nat), 0 ≤ index ∧ index < 3 ∧
      ([0, 4, 8] : List Nat)[index.toNat]? = some entry ∧
      calculate_offset 5 [0, 4, 8] 10 3 DOWN_ROW 12 = some entry) := by
  obtain ⟨hcur, _, hshift⟩ := C24_index_safety 5 [0, 4, 8] 10 3 12 (by decide) (by decide)
  exact ⟨hcur, hshift DOWN_ROW (Or.inr (Or.inr ⟨Or.inr rfl, by decide⟩))⟩

/-- On an offset index in closed form with `bytes_per_block >= 1` (a strictly
increasing index), the loop of `calculate_current_block` entered at a block
`i <= k` returns `k` for every offset from the start of block `k` up to the
start of block `k + 1`, and for every offset from the start of the last
block on. -/
theorem calculate_current_block_loop_strict (total_blocks : Int) (bytes_per_block : Nat)
    (blocks_with_excess_byte : Int) (offset_index : List Nat)
    (hoi : ∀ k : Nat, (k : Int) < total_blocks →
      offset_index[k]?
        = some (k * bytes_per_block + min k blocks_with_excess_byte.toNat))
    (hb : 1 ≤ bytes_per_block) (k b : Nat) (hk : (k : Int) < total_blocks)
    (hlo : k * bytes_per_block + min k blocks_with_excess_byte.toNat ≤ b)
    (hhi : (k : Int) + 1 < total_blocks →
      b < (k + 1) * bytes_per_block + min (k + 1) blocks_with_excess_byte.toNat) :
    ∀ (fuel i : Nat) (current_block : Int), i ≤ k → k + 2 - i ≤ fuel →
      calculate_current_block_loop total_blocks b offset_index fuel i current_block
        = some (k : Int) := by
  intro fuel
  induction fuel with
  | zero => intro i _ _ hf; omega
  | succ fuel ih =>
    intro i current_block hik hf
    have hmi : (i + 1) * bytes_per_block = i * bytes_per_block + bytes_per_block :=
      Nat.succ_mul i bytes_per_block
    have hle : i * bytes_per_block ≤ k * bytes_per_block :=
      Nat.mul_le_mul_right _ hik
    rw [calculate_current_block_loop]
    have hit : (i : Int) < total_blocks := by omega
    have hge : b ≥ i * bytes_per_block + min i blocks_with_excess_byte.toNat := by omega
    simp only [hit, if_true, hoi i hit, hge]
    by_cases hi1 : (i : Int) + 1 < total_blocks
    · have hne : ¬ ((i + 1) * bytes_per_block + min (i + 1) blocks_with_excess_byte.toNat
          = i * bytes_per_block + min i blocks_with_excess_byte.toNat) := by omega
      simp only [hi1, if_true, hoi (i + 1) (by push_cast; omega), hne, if_false]
      by_cases hki : i = k
      · subst hki
        cases fuel with
        | zero => omega
        | succ fuel =>
          rw [calculate_current_block_loop]
          have hk1 : ((i + 1 : Nat) : Int) < total_blocks := by push_cast; omega
          have hnot : ¬ (b ≥ (i + 1) * bytes_per_block
              + min (i + 1) blocks_with_excess_byte.toNat) := by
            have := hhi hi1
            omega
          simp only [hk1, if_true, hoi (i + 1) hk1, hnot, if_false]
      · exact ih (i + 1) (i : Int) (by omega) (by omega)
    · simp only [hi1, if_false]
      have hki : i = k := by omega
      subst hki
      cases fuel with
      | zero => omega
      | succ fuel =>
        rw [calculate_current_block_loop]
        have hend : ¬ (((i + 1 : Nat) : Int) < total_blocks) := by push_cast; omega
        simp only [hend, if_false]

/-- The highlight position of block `k = grid_width * row + column` with
`0 <= column < grid_width` and `0 <= row`, computed with the truncating
division and remainder of C. -/
theorem tdiv_tmod_grid (grid_width row column : Int) (hrow : 0 ≤ row)
    (hc0 : 0 ≤ column) (hc1 : column < grid_width) :
    Int.tdiv (grid_width * row + column) grid_width = row ∧
    Int.tmod (grid_width * row + column) grid_width = column := by
  have hpos : 0 < grid_width := by omega
  have hnn : 0 ≤ grid_width * row := Int.mul_nonneg (by omega) hrow
  rw [Int.tdiv_eq_ediv (by omega) (by omega), Int.tmod_eq_emod (by omega) (by omega)]
  exact (Int.ediv_emod_unique hpos).mpr ⟨by omega, hc0, hc1⟩

/-- A single click in overview mode at a coordinate that passes the test of
`mouse_clicked` and whose index is inside the array sets `file_offset` to the
entry at that index and changes nothing else. -/
theorem mouse_clicked_single_inside (s : Session) (offset_index : List Nat)
    (width height total_blocks mouse_x mouse_y : Int) (entry : Nat)
    (hmode : s.mode = OVERVIEW_MODE)
    (hguard : ¬ (mouse_x < SIDE_MARGIN ∨ mouse_x > width - SIDE_MARGIN - 1
      ∨ mouse_y < 2 ∨ mouse_y > height - 8))
    (h0 : (width - SIDE_MARGIN * 2) * (mouse_y - 2) + mouse_x - SIDE_MARGIN ≥ 0)
    (hlt : (width - SIDE_MARGIN * 2) * (mouse_y - 2) + mouse_x - SIDE_MARGIN
      < total_blocks)
    (hread : read_index offset_index
      ((width - SIDE_MARGIN * 2) * (mouse_y - 2) + mouse_x - SIDE_MARGIN) = some entry) :
    mouse_clicked s offset_index width height total_blocks mouse_x mouse_y
        BUTTON1_CLICKED
      = some { file_offset := entry, mode := s.mode, display := s.display } := by
  unfold mouse_clicked
  rw [if_pos ⟨hmode, Or.inl rfl⟩, if_neg hguard]
  simp only [hlt, h0, and_self, if_true, hread, Option.map_some',
    show BUTTON1_CLICKED ≠ BUTTON1_DOUBLE_CLICKED by decide, if_false]

/-- C26: for every accepted terminal size and every `largest_file_size` (an
`unsigned long`) of at least `total_blocks` bytes, on the offset index of the
partition, a single click in overview mode on the grid cell at column `x`, row
`y` sets the offset to the start of block
`k = grid_width * (y - 2) + (x - SIDE_MARGIN)`, the active block
`generate_overview` computes for that offset is `k`, and its highlight
position (row `k / grid_width + 2`, column `k % grid_width + SIDE_MARGIN`) is
the clicked cell; and `calculate_current_block (offset_index[k]) = k` for
every `k < total_blocks`. -/
theorem C26_click_highlight_round_trip (s : Session)
    (width height mouse_x mouse_y : Int) (largest_file_size : Nat)
    (hw : 10 ≤ width) (hh : 16 ≤ height) (hsize : largest_file_size < ULONG_MOD)
    (hge : (width - 2 * SIDE_MARGIN) * (height - VERTICAL_BLACK_SPACE)
      ≤ (largest_file_size : Int))
    (hmode : s.mode = OVERVIEW_MODE)
    (hx0 : SIDE_MARGIN ≤ mouse_x) (hx1 : mouse_x ≤ width - SIDE_MARGIN - 1)
    (hy0 : 2 ≤ mouse_y) (hy1 : mouse_y ≤ height - 10) :
    ∃ (offset_index : List Nat) (entry : Nat),
      generate_offsets ((width - 2 * SIDE_MARGIN) * (height - VERTICAL_BLACK_SPACE))
        (bytes_per_block_of largest_file_size
          ((width - 2 * SIDE_MARGIN) * (height - VERTICAL_BLACK_SPACE)))
        (blocks_with_excess_byte_of largest_file_size
          ((width - 2 * SIDE_MARGIN) * (height - VERTICAL_BLACK_SPACE)))
        = some offset_index ∧
      mouse_clicked s offset_index width height
          ((width - 2 * SIDE_MARGIN) * (height - VERTICAL_BLACK_SPACE))
          mouse_x mouse_y BUTTON1_CLICKED
        = some { file_offset := entry, mode := s.mode, display := s.display } ∧
      calculate_current_block
          ((width - 2 * SIDE_MARGIN) * (height - VERTICAL_BLACK_SPACE)) entry
          offset_index
        = some ((width - 2 * SIDE_MARGIN) * (mouse_y - 2) + (mouse_x - SIDE_MARGIN)) ∧
      active_block_position entry width
          ((width - 2 * SIDE_MARGIN) * (height - VERTICAL_BLACK_SPACE)) offset_index
        = some (mouse_y, mouse_x) ∧
      ∀ k : Nat,
        (k : Int) < (width - 2 * SIDE_MARGIN) * (height - VERTICAL_BLACK_SPACE) →
        ∃ start, offset_index[k]? = some start ∧
          calculate_current_block
            ((width - 2 * SIDE_MARGIN) * (height - VERTICAL_BLACK_SPACE)) start
            offset_index = some (k : Int) := by
  obtain ⟨_, h30⟩ := calculate_dimensions_accepted width height largest_file_size hw hh
  generalize htb : (width - 2 * SIDE_MARGIN) * (height - VERTICAL_BLACK_SPACE)
    = total_blocks at h30 hge ⊢
  have h1 : 1 ≤ total_blocks := by omega
  obtain ⟨hr0, hrlt, hsum⟩ := partition_of_size total_blocks largest_file_size h1
  have hM : total_blocks * (bytes_per_block_of largest_file_size total_blocks : Int)
      + blocks_with_excess_byte_of largest_file_size total_blocks
      < (ULONG_MOD : Int) := by
    rw [hsum]; exact_mod_cast hsize
  obtain ⟨oi, hgen, hlen, hk⟩ := generate_offsets_spec total_blocks _ _ h1 hr0 hM
  have hb : 1 ≤ bytes_per_block_of largest_file_size total_blocks := by
    by_contra hz
    have hz0 : bytes_per_block_of largest_file_size total_blocks = 0 := by omega
    rw [hz0] at hsum
    simp only [Nat.cast_zero, mul_zero, zero_add] at hsum
    omega
  have hall : ∀ k : Nat, (k : Int) < total_blocks →
      calculate_current_block total_blocks
        (k * bytes_per_block_of largest_file_size total_blocks
          + min k (blocks_with_excess_byte_of largest_file_size total_blocks).toNat)
        oi = some (k : Int) := by
    intro k hkt
    unfold calculate_current_block
    have hmk : (k + 1) * bytes_per_block_of largest_file_size total_blocks
        = k * bytes_per_block_of largest_file_size total_blocks
          + bytes_per_block_of largest_file_size total_blocks :=
      Nat.succ_mul k _
    exact calculate_current_block_loop_strict total_blocks _ _ oi hk hb k _ hkt
      (le_refl _) (fun _ => by omega) (total_blocks.toNat + 1) 0 0 (Nat.zero_le k)
      (by omega)
  -- the clicked block
  simp only [SIDE_MARGIN, VERTICAL_BLACK_SPACE] at htb hx0 hx1 hy0 hy1 ⊢
  have hgw : (0 : Int) ≤ width - 2 * 2 := by omega
  have hnn : 0 ≤ (width - 2 * 2) * (mouse_y - 2) := Int.mul_nonneg hgw (by omega)
  have hmul : (width - 2 * 2) * (mouse_y - 2) ≤ (width - 2 * 2) * (height - 11 - 1) :=
    Int.mul_le_mul_of_nonneg_left (by omega) hgw
  have hexp : (width - 2 * 2) * (height - 11 - 1)
      = (width - 2 * 2) * (height - 11) - (width - 2 * 2) := by ring
  have hi0 : 0 ≤ (width - 2 * 2) * (mouse_y - 2) + (mouse_x - 2) := by omega
  have hilt : (width - 2 * 2) * (mouse_y - 2) + (mouse_x - 2) < total_blocks := by omega
  obtain ⟨n, hn⟩ : ∃ n : Nat, (width - 2 * 2) * (mouse_y - 2) + (mouse_x - 2) = (n : Int) :=
    ⟨((width - 2 * 2) * (mouse_y - 2) + (mouse_x - 2)).toNat, by omega⟩
  have hnt : (n : Int) < total_blocks := by omega
  refine ⟨oi, n * bytes_per_block_of largest_file_size total_blocks
      + min n (blocks_with_excess_byte_of largest_file_size total_blocks).toNat,
    hgen, ?_, ?_, ?_, fun k hkt => ⟨_, hk k hkt, hall k hkt⟩⟩
  · apply mouse_clicked_single_inside s oi width height total_blocks mouse_x mouse_y
      (n * bytes_per_block_of largest_file_size total_blocks
          + min n (blocks_with_excess_byte_of largest_file_size total_blocks).toNat)
      hmode
    · simp only [SIDE_MARGIN]; omega
    · simp only [SIDE_MARGIN]; omega
    · simp only [SIDE_MARGIN]; omega
    · simp only [SIDE_MARGIN]
      have hsame : (width - 2 * 2) * (mouse_y - 2) + mouse_x - 2 = (n : Int) := by omega
      rw [hsame]
      unfold read_index
      rw [if_neg (by omega), Int.toNat_ofNat]
      exact hk n hnt
  · rw [hn]
    exact hall n hnt
  · unfold active_block_position
    rw [hall n hnt]
    simp only [Option.map_some', SIDE_MARGIN, Option.some.injEq, Prod.mk.injEq]
    obtain ⟨hdiv, hmod⟩ := tdiv_tmod_grid (width - 2 * 2) (mouse_y - 2) (mouse_x - 2)
      (by omega) (by omega) (by omega)
    rw [← hn, hdiv, hmod]
    constructor <;> omega

/-- Witness for C26: a click at column 3, row 4 of a 10 x 16 terminal with a
100-byte file selects block 13, which starts at byte 49 and is highlighted at
row 4, column 3. -/
theorem C26_click_highlight_round_trip_witness :
    ∃ (offset_index : List Nat) (entry : Nat),
      generate_offsets 30 (bytes_per_block_of 100 30) (blocks_with_excess_byte_of 100 30)
        = some offset_index ∧
      mouse_clicked { file_offset := 0, mode := OVERVIEW_MODE, display := HEX_VIEW }
          offset_index 10 16 30 3 4 BUTTON1_CLICKED
        = some { file_offset := entry, mode := OVERVIEW_MODE, display := HEX_VIEW } ∧
      calculate_current_block 30 entry offset_index = some 13 ∧
      active_block_position entry 10 30 offset_index = some (4, 3) := by
  obtain ⟨oi, entry, hgen, hclick, hcur, hpos, _⟩ := C26_click_highlight_round_trip
    { file_offset := 0, mode := OVERVIEW_MODE, display := HEX_VIEW } 10 16 3 4 100
    (by decide) (by decide) (by decide) (by decide) rfl (by decide) (by decide)
    (by decide) (by decide)
  exact ⟨oi, entry, hgen, hclick, hcur, hpos⟩

/-! ## Painting -/

end Hexcompare
